import Mathlib

/-
Verification of the inventory repository's quantity arithmetic, unit
conversion, consumption-rate estimation, record submission and
natural-date classification logic.

Python decimal values are modelled as exact rationals (the spec fixes
exact decimal arithmetic throughout); non-finite decimals (NaN,
infinities) get a dedicated constructor.  Python exceptions are modelled
with Except over an error enumeration.  Timestamps are modelled as exact
rational second counts; calendar dates by year/month/day triples with the
standard civil-calendar day-number conversions (the proleptic Gregorian
calendar of Python's date type).  Timezone handling is not modelled: the
code under test runs entirely in a single timezone and the claims checked
here do not cross DST boundaries.
-/

/-- Python exception kinds raised by the translated code: ValueError is the
DomainError of the spec, TypeError the precondition-violation signal,
ValidationError the recoverable user-input failure, and InvalidOperation
the decimal-module signal raised when a quantize result exceeds the
context precision. -/
inductive PyError where
  | valueError
  | typeError
  | validationError
  | invalidOperation
deriving DecidableEq

/-- A Python Decimal: either a finite value (an exact rational) or one of
the non-finite values rejected by is_finite().  NaN payloads and signs are
irrelevant to the translated code; infinity keeps its sign. -/
inductive PyDecimal where
  | fin (q : ℚ)
  | nan
  | inf (neg : Bool)
deriving DecidableEq

instance {ε α : Type} [DecidableEq ε] [DecidableEq α] : DecidableEq (Except ε α) := fun a b =>
  match a, b with
  | .ok x, .ok y => decidable_of_iff (x = y) (by simp)
  | .error x, .error y => decidable_of_iff (x = y) (by simp)
  | .ok _, .error _ => isFalse (by simp)
  | .error _, .ok _ => isFalse (by simp)

/-- Round a rational to an integer, ties away from zero: the semantics of
decimal ROUND_HALF_UP, which models.round_quantity selects via
localcontext. -/
def halfUpInt (x : ℚ) : ℤ :=
  if 0 ≤ x then ⌊x + 1 / 2⌋ else -⌊-x + 1 / 2⌋

/-- Round a rational to an integer, ties to even: the semantics of decimal
ROUND_HALF_EVEN, the default-context rounding used by the plain round()
calls in forms.py, and also the tie-breaking used by the float round()
builtin in common/dt.py. -/
def halfEvenInt (x : ℚ) : ℤ :=
  if x - ⌊x⌋ < 1 / 2 then ⌊x⌋
  else if 1 / 2 < x - ⌊x⌋ then ⌊x⌋ + 1
  else if ⌊x⌋ % 2 = 0 then ⌊x⌋ else ⌊x⌋ + 1

/-- Python round(value, dp) on a Decimal under a ROUND_HALF_UP context. -/
def roundHalfUpDp (x : ℚ) (dp : ℕ) : ℚ :=
  (halfUpInt (x * 10 ^ dp) : ℚ) / 10 ^ dp

/-- Python round(value, dp) on a Decimal under the default context, whose
rounding mode is ROUND_HALF_EVEN. -/
def roundHalfEvenDp (x : ℚ) (dp : ℕ) : ℚ :=
  (halfEvenInt (x * 10 ^ dp) : ℚ) / 10 ^ dp

/-- Python round(value, dp) on a Decimal in a context of the default
precision of 28 significant digits: the underlying quantize raises
InvalidOperation when the rounded result's coefficient would exceed 28
digits, that is when the magnitude of the scaled half-up rounding reaches
10 ^ 28; otherwise it returns the exact half-up rounding. -/
def roundHalfUpCtx (x : ℚ) (dp : ℕ) : Except PyError ℚ :=
  if 10 ^ 28 ≤ |halfUpInt (x * 10 ^ dp)| then .error .invalidOperation
  else .ok ((halfUpInt (x * 10 ^ dp) : ℚ) / 10 ^ dp)

/-- Translation of models.round_quantity: reject non-finite values with
ValueError, round half-up to 3 and then to 2 decimal places under the
default 28-digit context (when the first quantize overflows the context
precision its InvalidOperation propagates; the second can only overflow
if the first does), and prefer the 2-place result when the two differ by
at most 0.001.  The source compares abs(r1 - r0) against the float
10 ** -3, whose exact value is slightly above 1/1000; the difference of
the two roundings is always a multiple of 1/1000 and its subtraction is
exact at this precision, so the comparison is equivalent to comparing
against 1/1000. -/
def round_quantity : PyDecimal → Except PyError ℚ
  | .fin q =>
      match roundHalfUpCtx q 3 with
      | .error e => .error e
      | .ok r0 =>
          match roundHalfUpCtx q 2 with
          | .error e => .error e
          | .ok r1 => .ok (if |r1 - r0| ≤ 1 / 1000 then r1 else r0)
  | .nan => .error .valueError
  | .inf _ => .error .valueError

/-- The character of a decimal digit. -/
def digitChar (n : ℕ) : Char := Char.ofNat (48 + n)

/-- Decimal digit expansion of a natural number, most significant digit
first, with explicit fuel; one unit of fuel is consumed per digit. -/
def natDigitsAux : ℕ → ℕ → List Char
  | 0, _ => []
  | fuel + 1, n =>
      if n < 10 then [digitChar n]
      else natDigitsAux fuel (n / 10) ++ [digitChar (n % 10)]

/-- Decimal digit expansion of a natural number below 10 ^ 40, which covers
every magnitude reachable from MAX_DIGITS = 12 digit decimals with ample
margin. -/
def natDigits (n : ℕ) : List Char := natDigitsAux 40 n

/-- Remove trailing zero characters, as the %g conversion does to the
fractional part. -/
def stripZeros (l : List Char) : List Char :=
  (l.reverse.dropWhile (fun c => c = digitChar 0)).reverse

/-- Left-pad a digit list with zeros to the requested width. -/
def padZeros (f : ℕ) (l : List Char) : List Char :=
  List.replicate (f - l.length) (digitChar 0) ++ l

/-- Fixed-notation rendering of the value a / 10 ^ f with trailing
fractional zeros removed and the decimal point dropped when nothing
follows it, as the %g conversion specifies. -/
def fixedChars (a f : ℕ) : List Char :=
  let frac := stripZeros (padZeros f (natDigits (a % 10 ^ f)))
  natDigits (a / 10 ^ f) ++ (if frac = [] then [] else '.' :: frac)

/-- Division rounded to the nearest integer with ties to even, used to cut
a decimal expansion down to 12 significant digits exactly as
binary-to-decimal formatting with precision 12 does on the decimal-exact
inputs arising here. -/
def halfEvenDivNat (n d : ℕ) : ℕ :=
  if 2 * (n % d) < d then n / d
  else if d < 2 * (n % d) then n / d + 1
  else if (n / d) % 2 = 0 then n / d else n / d + 1

/-- Rendering of the positive value n / 1000 under the C %.12g conversion
(the Python % operator formats a Decimal through float; on the 3-decimal
quantized values produced by round_quantity the conversion is faithful at
12 significant digits): round to 12 significant digits, then use
scientific notation exactly when the resulting decimal exponent reaches 12
(the exponent of a nonzero multiple of 1/1000 is at least -3, so the small
negative exponent cutoff of %g is unreachable), stripping trailing
fractional zeros either way. -/
def gChars (n : ℕ) : List Char :=
  let L := (natDigits n).length
  if L ≤ 12 then fixedChars n 3
  else
    let k := L - 12
    let q12 := halfEvenDivNat n (10 ^ k)
    let X : ℤ := ((natDigits q12).length : ℤ) - 1 + ((k : ℤ) - 3)
    if X < 12 then
      if k ≤ 3 then fixedChars q12 (3 - k) else fixedChars (q12 * 10 ^ (k - 3)) 0
    else
      let ds := stripZeros (natDigits q12)
      ds.take 1 ++ (if ds.length ≤ 1 then [] else '.' :: ds.drop 1)
        ++ ('e' :: '+' :: natDigits X.toNat)

/-- The %.12g or %+.12g conversion applied to a rational that is a multiple
of 1/1000 (round_quantity only ever emits such values).  Zero renders as 0
with an optional plus sign; our rational model has a single zero, so the
negative-zero decimal is not represented.  Otherwise a sign character
precedes the digit rendering of the magnitude. -/
def fmtG (r : ℚ) (plus : Bool) : List Char :=
  if r = 0 then (if plus then ['+', '0'] else ['0'])
  else
    (if r < 0 then ['-'] else if plus then ['+'] else [])
      ++ gChars (⌊|r| * 1000⌋).toNat

/-- Translation of models.format_quantity: round via round_quantity, render
with a 12 significant digit budget (plus-signed when delta is set), and
replace the ASCII hyphen with the Unicode minus sign. -/
def format_quantity (value : PyDecimal) (delta : Bool) : Except PyError String :=
  (round_quantity value).map fun r =>
    String.mk ((fmtG r delta).map fun c => if c = '-' then '−' else c)

/-- A unit of measurement: the fields of models.Unit that carry conversion
semantics (display fields are omitted).  measure is the UnitEnum value and
convert the positive decimal factor to the base unit of the measure. -/
structure PyUnit where
  measure : ℕ
  convert : ℚ
deriving DecidableEq

/-- Conversion of a user-entered quantity to the stored base-unit
representation, as performed inline by AddRecordForm.clean and by the
generated bulk update form: round(quantity * unit.convert, DP_QUANTITY)
under the default decimal context, whose rounding is ROUND_HALF_EVEN. -/
def to_base (quantity : ℚ) (unit : PyUnit) : ℚ :=
  roundHalfEvenDp (quantity * unit.convert) 3

/-- Modelled from the spec: the spec states the conversion rule as
to_base(quantity, unit) = round(quantity * unit.convert, 3 decimal places,
half-up).  This definition follows the spec's words (half-up rounding) for
comparison against the source-derived to_base above. -/
def to_base_spec (quantity : ℚ) (unit : PyUnit) : ℚ :=
  roundHalfUpDp (quantity * unit.convert) 3

/-- Conversion of a stored base-unit quantity back to the unit's scale, as
Record.convert_quantity does: stored / unit.convert. -/
def from_base (stored : ℚ) (unit : PyUnit) : ℚ :=
  stored / unit.convert

/-- The cross-measure guard of AddRecordForm.clean: a quantity submitted in
a unit of a different measure from the item's unit fails validation;
otherwise the quantity is converted to base units. -/
def clean_quantity (quantity : ℚ) (itemUnit unit : PyUnit) : Except PyError ℚ :=
  if itemUnit.measure ≠ unit.measure then .error .validationError
  else .ok (to_base quantity unit)

/-- A record of one item, as one row of the ESTIMATED_DAYS_LEFT query:
quantity in base units paired with the added timestamp in seconds. -/
def RecRow : Type := ℚ × ℚ

/-- The consecutive ordered pairs produced by the lead() window over one
item's records ordered by added: each element pairs a row with its
successor. -/
def consecPairs (rs : List (ℚ × ℚ)) : List ((ℚ × ℚ) × (ℚ × ℚ)) :=
  rs.zip rs.tail

/-- The pooled numerator sum(greatest(q0 - q1, 0)) of ESTIMATED_DAYS_LEFT:
only net decreases between consecutive records count. -/
def pooledDrop (rs : List (ℚ × ℚ)) : ℚ :=
  ((consecPairs rs).map fun p => max (p.1.1 - p.2.1) 0).sum

/-- The pooled denominator sum(extract(EPOCH FROM a1 - a0)) of
ESTIMATED_DAYS_LEFT: total elapsed seconds over consecutive pairs. -/
def pooledElapsed (rs : List (ℚ × ℚ)) : ℚ :=
  ((consecPairs rs).map fun p => p.2.2 - p.1.2).sum

/-- The per-item aggregate of the ESTIMATED_DAYS_LEFT query feeding
find_average_use: with fewer than two records the window produces no
complete pair, the SQL sums are NULL and the item's average is NULL;
otherwise nullif turns a zero pooled rate into NULL.  SQL would raise a
division-by-zero error if the elapsed sum were zero; rational division by
zero yields zero here, so this model is used only for sequences with
strictly increasing timestamps, where the elapsed sum is positive. -/
def average_use (rs : List (ℚ × ℚ)) : Option ℚ :=
  match consecPairs rs with
  | [] => none
  | _ :: _ =>
      let v := pooledDrop rs / pooledElapsed rs * 86400
      if v = 0 then none else some v

/-- Translation of Item.expected_end: defined only when a latest record
exists (quantity, added-timestamp pair), its quantity is truthy (nonzero)
and the attached average is truthy (present and nonzero); then the
latest timestamp plus quantity / average days.  The source converts
quantity / average through float before building the timedelta; the exact
rational value is used here. -/
def expected_end (latest : Option (ℚ × ℚ)) (average : Option ℚ) : Option ℚ :=
  match latest, average with
  | some r, some a =>
      if r.1 ≠ 0 ∧ a ≠ 0 then some (r.2 + r.1 / a * 86400) else none
  | _, _ => none

/-- A stored record row: owning item id, quantity in base units, added
timestamp in seconds, and the free-text note. -/
structure RecordRow where
  item : ℕ
  quantity : ℚ
  added : ℚ
  note : String
deriving DecidableEq

/-- The double-submission window of forms.py, in seconds. -/
def MIN_DOUBLE_POST : ℚ := 60

/-- Translation of AddRecordForm.save acting on one item's stored records
in ascending added order: read the latest record; if it is younger than
MIN_DOUBLE_POST, overwrite its added timestamp and quantity in place (the
submitted note is not copied); otherwise append a fresh record built from
the form fields, whose added timestamp Record.save sets to now. -/
def add_record_save (records : List RecordRow) (item : ℕ) (quantity : ℚ)
    (note : String) (now : ℚ) : List RecordRow :=
  match records.getLast? with
  | some latest =>
      if now - latest.added < MIN_DOUBLE_POST then
        records.dropLast ++ [{ latest with added := now, quantity := quantity }]
      else records ++ [⟨item, quantity, now, note⟩]
  | none => records ++ [⟨item, quantity, now, note⟩]

/-- Translation of the per-item step of the generated update form's save:
given the item's prefetched latest record and the submitted converted
quantity, either update that record's added and quantity fields (the only
fields bulk_update later writes) or build a new record carrying the shared
note. -/
def bulk_save_record (latest : Option RecordRow) (item : ℕ) (value : ℚ)
    (note : String) (now : ℚ) : RecordRow :=
  match latest with
  | some l =>
      if now - l.added < MIN_DOUBLE_POST then { l with added := now, quantity := value }
      else ⟨item, value, now, note⟩
  | none => ⟨item, value, now, note⟩

/-- Translation of the loop of the generated update form's save over the
item list: items without a submitted value are skipped, every other item
contributes one written record via bulk_save_record. -/
def bulk_save (items : List (ℕ × Option RecordRow)) (values : ℕ → Option ℚ)
    (note : String) (now : ℚ) : List RecordRow :=
  items.filterMap fun it => (values it.1).map fun v =>
    bulk_save_record it.2 it.1 v note now

/-- A calendar date as Python's date type holds it: year, month (1-12) and
day (1-31). -/
structure Civil where
  year : ℤ
  month : ℕ
  day : ℕ
deriving DecidableEq

/-- Day count of the civil date, with day 0 = 1970-01-01, via the standard
era decomposition of the proleptic Gregorian calendar. -/
def toDays (c : Civil) : ℤ :=
  let y := c.year - (if c.month ≤ 2 then 1 else 0)
  let era := y / 400
  let yoe := (y % 400).toNat
  let mp := if 2 < c.month then c.month - 3 else c.month + 9
  let doy := (153 * mp + 2) / 5 + c.day - 1
  let doe := 365 * yoe + yoe / 4 - yoe / 100 + doy
  era * 146097 + (doe : ℤ) - 719468

/-- Year of a day-of-era (the closed-form inverse used by the standard
civil-from-days algorithm). -/
def yoeOf (doe : ℕ) : ℕ :=
  (doe - doe / 1460 + doe / 36524 - doe / 146096) / 365

/-- Days of the era that precede year-of-era yoe. -/
def daysBeforeYoe (yoe : ℕ) : ℕ := 365 * yoe + yoe / 4 - yoe / 100

/-- First day-of-era strictly after year-of-era yoe (the era has 146097
days and its final year is leap). -/
def yoeEnd (yoe : ℕ) : ℕ :=
  if yoe = 399 then 146097 else daysBeforeYoe (yoe + 1)

/-- The civil date of a day count, inverse of toDays. -/
def ofDays (z : ℤ) : Civil :=
  let z' := z + 719468
  let era := z' / 146097
  let doe := (z' % 146097).toNat
  let yoe := yoeOf doe
  let doy := doe - daysBeforeYoe yoe
  let mp := (5 * doy + 2) / 153
  let d := doy - (153 * mp + 2) / 5 + 1
  let m := if mp < 10 then mp + 3 else mp - 9
  ⟨era * 400 + yoe + (if m ≤ 2 then 1 else 0), m, d⟩

/-- Python's date.weekday(): Monday is 0.  Day 0 of our count, 1970-01-01,
was a Thursday. -/
def weekday (c : Civil) : ℕ := ((toDays c + 3) % 7).toNat

/-- Whether a year is a Gregorian leap year. -/
def isLeap (y : ℤ) : Bool :=
  y % 4 = 0 ∧ (y % 100 ≠ 0 ∨ y % 400 = 0)

/-- calendar.monthrange's day count for a month. -/
def monthrange (y : ℤ) (m : ℕ) : ℕ :=
  if m = 2 then (if isLeap y then 29 else 28)
  else if m = 4 ∨ m = 6 ∨ m = 9 ∨ m = 11 then 30
  else 31

/-- Python's date constructor: validates the month and day fields and
raises ValueError when the day does not exist in the month, for example
February 29 of a non-leap year. -/
def pyDate (y : ℤ) (m d : ℕ) : Except PyError Civil :=
  if 1 ≤ m ∧ m ≤ 12 ∧ 1 ≤ d ∧ d ≤ monthrange y m then .ok ⟨y, m, d⟩
  else .error .valueError

/-- Translation of common.dt._calendar_delta on a date, restricted to the
calls _natural_date makes: there years and months are zero, so the
rebuild date(year + 0, month, day) of an existing (valid) date cannot
fail and the shift is a pure value.  The general, fallible translation
used by the since pipeline is calendar_delta_py below. -/
def calendar_delta (c : Civil) (years months days : ℤ) : Civil :=
  let d0 : Civil := ⟨c.year + years, c.month, c.day⟩
  let d1 :=
    if months ≠ 0 then
      let delta := (d0.month : ℤ) - 1 + months
      let ny := d0.year + delta / 12
      let nm := (delta % 12 + 1).toNat
      ⟨ny, nm, min d0.day (monthrange ny nm)⟩
    else d0
  if days ≠ 0 then ofDays (toDays d1 + days) else d1

/-- A timezone-aware Python datetime, modelled as its civil date and the
second of day; timezone conversions in the source preserve these fields in
the single-timezone, no-DST model used here. -/
structure PyDateTime where
  date : Civil
  sec : ℕ
deriving DecidableEq

/-- Second count of a datetime. -/
def toSec (t : PyDateTime) : ℤ := toDays t.date * 86400 + (t.sec : ℤ)

/-- The general translation of common.dt._calendar_delta: the year-shifted
rebuild date(year + years, month, day) goes through the fallible date
constructor and raises ValueError when the day does not exist in the
target year's month (February 29 into a non-leap year); the month-stepping
branch clamps the day to the target month's length, so its construction
always succeeds, and the final day addition goes through the day count. -/
def calendar_delta_py (c : Civil) (years months days : ℤ) : Except PyError Civil := do
  let d0 ← pyDate (c.year + years) c.month c.day
  let d1 :=
    if months ≠ 0 then
      let delta := (d0.month : ℤ) - 1 + months
      let ny := d0.year + delta / 12
      let nm := (delta % 12 + 1).toNat
      (⟨ny, nm, min d0.day (monthrange ny nm)⟩ : Civil)
    else d0
  pure (if days ≠ 0 then ofDays (toDays d1 + days) else d1)

/-- The _calendar_delta branch for datetime inputs: shift the date part
(propagating its ValueError) and keep the time of day. -/
def calendar_delta_dt_py (t : PyDateTime) (years months days : ℤ) :
    Except PyError PyDateTime :=
  (calendar_delta_py t.date years months days).map fun c => ⟨c, t.sec⟩

/-- The while loop of _calendar_count on dates: step previous backwards by
one calendar unit while it stays after the shifted first date, counting
steps and propagating any ValueError of the backward step.  Fuel bounds
the iteration count; every backward step moves previous by at least one
day, so the day distance plus one suffices. -/
def countLoop (years months days : ℤ) (afterFirst : Civil) :
    ℕ → Civil × ℤ → Except PyError (Civil × ℤ)
  | 0, st => .ok st
  | fuel + 1, (previous, count) =>
      if toDays afterFirst < toDays previous then do
        let p ← calendar_delta_py previous (-years) (-months) (-days)
        countLoop years months days afterFirst fuel (p, count + 1)
      else .ok (previous, count)

/-- Translation of _calendar_count on dates (the source asserts
first < second; callers establish it): count whole calendar units by
backward stepping, then add the rounded fractional remainder.  The source
rounds a float ratio with the round() builtin, whose ties go to even. -/
def calendar_count (first second : Civil) (years months days : ℤ) :
    Except PyError ℤ := do
  let afterFirst ← calendar_delta_py first years months days
  let fuel := (toDays second - toDays afterFirst).toNat + 1
  let st ← countLoop years months days afterFirst fuel (second, 0)
  let diffS : ℚ := ((toDays st.1 - toDays first) * 86400 : ℤ)
  let dayS : ℚ := ((toDays afterFirst - toDays first) * 86400 : ℤ)
  pure (st.2 + halfEvenInt (diffS / dayS))

/-- The while loop of _calendar_count for datetime inputs. -/
def countLoopDT (years months days : ℤ) (afterFirst : PyDateTime) :
    ℕ → PyDateTime × ℤ → Except PyError (PyDateTime × ℤ)
  | 0, st => .ok st
  | fuel + 1, (previous, count) =>
      if toSec afterFirst < toSec previous then do
        let p ← calendar_delta_dt_py previous (-years) (-months) (-days)
        countLoopDT years months days afterFirst fuel (p, count + 1)
      else .ok (previous, count)

/-- Translation of _calendar_count for datetime inputs: as calendar_count
but measuring in seconds. -/
def calendar_count_dt (first second : PyDateTime) (years months days : ℤ) :
    Except PyError ℤ := do
  let afterFirst ← calendar_delta_dt_py first years months days
  let fuel := ((toSec second - toSec afterFirst).toNat / 86400) + 1
  let st ← countLoopDT years months days afterFirst fuel (second, 0)
  let diffS : ℚ := (toSec st.1 - toSec first : ℤ)
  let dayS : ℚ := (toSec afterFirst - toSec first : ℤ)
  pure (st.2 + halfEvenInt (diffS / dayS))

/-- An argument to since or natural: a date-only value or a timestamped
value (Python passes either type through the same parameter). -/
inductive DateArg where
  | d (c : Civil)
  | dt (t : PyDateTime)
deriving DecidableEq

/-- The calendar date of an argument, as date(x.year, x.month, x.day). -/
def dateOf : DateArg → Civil
  | .d c => c
  | .dt t => t.date

/-- The date-only classification body of common.dt.since, reached when the
first argument carries no time: the has_time branches of the source are
statically false here.  Dates are compared chronologically through their
day counts; the calendar shifts evaluated inside the branch conditions
propagate their ValueError, as in the source where the exception escapes
the comparison. -/
def sinceDate (thenD other : Civil) : Except PyError String :=
  let past := ¬ toDays other ≤ toDays thenD
  let first := if toDays other ≤ toDays thenD then other else thenD
  let second := if toDays other ≤ toDays thenD then thenD else other
  let diff := toDays second - toDays first
  if diff = 0 then pure "today"
  else
    let ago := if past then " ago" else ""
    if diff = 1 then pure (if past then "yesterday" else "tomorrow")
    else do
      let d7 ← calendar_delta_py second 0 0 (-7)
      if toDays d7 < toDays first then do
        let days ← calendar_count first second 0 0 1
        pure (if days = 1 then "a day" ++ ago else toString days ++ " days" ++ ago)
      else do
        let m1 ← calendar_delta_py second 0 (-1) 0
        if toDays m1 < toDays first then do
          let weeks ← calendar_count first second 0 0 7
          pure (if weeks = 1 then "a week" ++ ago else toString weeks ++ " weeks" ++ ago)
        else do
          let y1 ← calendar_delta_py second (-1) 0 0
          if toDays y1 < toDays first then do
            let months ← calendar_count first second 0 1 0
            pure (if months = 1 then "a month" ++ ago
              else toString months ++ " months" ++ ago)
          else do
            let years ← calendar_count first second 1 0 0
            pure (if years = 1 then "a year" ++ ago
              else toString years ++ " years" ++ ago)

/-- The timestamped classification body of common.dt.since, reached when
both arguments carry time: the has_time branches of the source are
statically true here. -/
def sinceDT (thenT other : PyDateTime) : Except PyError String :=
  let past := ¬ toSec other ≤ toSec thenT
  let first := if toSec other ≤ toSec thenT then other else thenT
  let second := if toSec other ≤ toSec thenT then thenT else other
  let diff := toSec second - toSec first
  if diff < 60 then pure (if past then "just now" else "now")
  else
    let ago := if past then " ago" else ""
    if diff < 3600 then
      let minutes := halfEvenInt ((diff : ℚ) / 60)
      pure (if minutes = 1 then "a minute" ++ ago
        else toString minutes ++ " minutes" ++ ago)
    else do
      let d1 ← calendar_delta_dt_py second 0 0 (-1)
      if toSec d1 < toSec first then
        let hours := halfEvenInt ((diff : ℚ) / 3600)
        pure (if hours = 1 then "an hour" ++ ago else toString hours ++ " hours" ++ ago)
      else do
        let d7 ← calendar_delta_dt_py second 0 0 (-7)
        if toSec d7 < toSec first then do
          let days ← calendar_count_dt first second 0 0 1
          pure (if days = 1 then "a day" ++ ago else toString days ++ " days" ++ ago)
        else do
          let m1 ← calendar_delta_dt_py second 0 (-1) 0
          if toSec m1 < toSec first then do
            let weeks ← calendar_count_dt first second 0 0 7
            pure (if weeks = 1 then "a week" ++ ago
              else toString weeks ++ " weeks" ++ ago)
          else do
            let y1 ← calendar_delta_dt_py second (-1) 0 0
            if toSec y1 < toSec first then do
              let months ← calendar_count_dt first second 0 1 0
              pure (if months = 1 then "a month" ++ ago
                else toString months ++ " months" ++ ago)
            else do
              let years ← calendar_count_dt first second 1 0 0
              pure (if years = 1 then "a year" ++ ago
                else toString years ++ " years" ++ ago)

/-- Translation of common.dt.since: dispatch on whether the first argument
carries a time component.  When it does, a supplied second argument must
also carry one, otherwise TypeError is raised; an omitted second argument
defaults to the clock.  When the first argument is date-only, the date
part of the second argument (or of the clock) is extracted and the
date-only classification runs; any ValueError it raises propagates. -/
def since (thenA : DateArg) (now : Option DateArg) (clock : PyDateTime) :
    Except PyError String :=
  match thenA, now with
  | .dt t, none => sinceDT t clock
  | .dt t, some (.dt n) => sinceDT t n
  | .dt _, some (.d _) => .error .typeError
  | .d c, _ =>
      let nowArg := match now with
        | some x => x
        | none => .dt clock
      sinceDate c (dateOf nowArg)

/-- The classification buckets of common.dt._ND. -/
inductive ND where
  | YEAR_BEFORE
  | LAST_YEAR
  | THIS_YEAR
  | LAST_WEEK
  | THIS_WEEK
  | YESTERDAY
  | TODAY
  | TOMORROW
  | NEXT_WEEK
  | NEXT_YEAR
  | YEAR_AFTER
deriving DecidableEq

/-- Translation of common.dt._natural_date: strip both arguments to dates,
check adjacency, then the three Monday-anchored half-open week windows,
then the calendar-year buckets. -/
def natural_date (thenA : DateArg) (now : Option DateArg) (clock : PyDateTime) : ND :=
  let thenD := dateOf thenA
  let nowD := dateOf (match now with | some x => x | none => .dt clock)
  if thenD = nowD then .TODAY
  else if thenD = calendar_delta nowD 0 0 (-1) then .YESTERDAY
  else if thenD = calendar_delta nowD 0 0 1 then .TOMORROW
  else
    let thisWeek := calendar_delta nowD 0 0 (-(weekday nowD : ℤ))
    let lastWeek := calendar_delta thisWeek 0 0 (-7)
    let nextWeek := calendar_delta thisWeek 0 0 7
    let fortnight := calendar_delta thisWeek 0 0 14
    if toDays lastWeek ≤ toDays thenD ∧ toDays thenD < toDays thisWeek then .LAST_WEEK
    else if toDays thisWeek ≤ toDays thenD ∧ toDays thenD < toDays nextWeek then .THIS_WEEK
    else if toDays nextWeek ≤ toDays thenD ∧ toDays thenD < toDays fortnight then .NEXT_WEEK
    else if thenD.year < nowD.year - 1 then .YEAR_BEFORE
    else if thenD.year = nowD.year - 1 then .LAST_YEAR
    else if thenD.year = nowD.year + 1 then .NEXT_YEAR
    else if nowD.year + 1 < thenD.year then .YEAR_AFTER
    else .THIS_YEAR

theorem halfUpInt_sub_abs_le (x : ℚ) : |(halfUpInt x : ℚ) - x| ≤ 1 / 2 := by
  unfold halfUpInt
  split
  · rw [abs_le]
    constructor
    · have := Int.lt_floor_add_one (x + 1 / 2)
      push_cast at this ⊢
      linarith
    · have := Int.floor_le (x + 1 / 2)
      push_cast at this ⊢
      linarith
  · rw [abs_le]
    push_cast
    constructor
    · have := Int.floor_le (-x + 1 / 2)
      push_cast at this
      linarith
    · have := Int.lt_floor_add_one (-x + 1 / 2)
      push_cast at this
      linarith

theorem halfEvenInt_sub_abs_le (x : ℚ) : |(halfEvenInt x : ℚ) - x| ≤ 1 / 2 := by
  unfold halfEvenInt
  have h1 : (⌊x⌋ : ℚ) ≤ x := Int.floor_le x
  have h2 : x < ⌊x⌋ + 1 := Int.lt_floor_add_one x
  split
  · rw [abs_le]; constructor <;> linarith
  · split
    · rw [abs_le]
      push_cast
      constructor <;> linarith
    · split <;> (rw [abs_le]; push_cast; constructor <;> linarith)

theorem halfEvenInt_tie_even (x : ℚ) (h : |(halfEvenInt x : ℚ) - x| = 1 / 2) :
    halfEvenInt x % 2 = 0 := by
  have h1 : (⌊x⌋ : ℚ) ≤ x := Int.floor_le x
  have h2 : x < ⌊x⌋ + 1 := Int.lt_floor_add_one x
  unfold halfEvenInt at h ⊢
  by_cases hlt : x - ⌊x⌋ < 1 / 2
  · exfalso
    rw [if_pos hlt] at h
    rw [abs_sub_comm, abs_of_nonneg (by linarith)] at h
    linarith
  · rw [if_neg hlt] at h ⊢
    by_cases hgt : 1 / 2 < x - ⌊x⌋
    · exfalso
      rw [if_pos hgt] at h
      rw [abs_of_nonneg (by push_cast; linarith)] at h
      push_cast at h
      linarith
    · rw [if_neg hgt] at h ⊢
      split <;> omega

theorem roundHalfEvenDp_sub_abs_le (x : ℚ) (dp : ℕ) :
    |roundHalfEvenDp x dp - x| ≤ 1 / (2 * 10 ^ dp) := by
  unfold roundHalfEvenDp
  have hp : (0 : ℚ) < 10 ^ dp := by positivity
  have h := halfEvenInt_sub_abs_le (x * 10 ^ dp)
  have key : (halfEvenInt (x * 10 ^ dp) : ℚ) / 10 ^ dp - x
      = ((halfEvenInt (x * 10 ^ dp) : ℚ) - x * 10 ^ dp) / 10 ^ dp := by
    field_simp
    ring
  rw [key, abs_div, abs_of_pos hp, div_le_iff₀ hp]
  calc |(halfEvenInt (x * 10 ^ dp) : ℚ) - x * 10 ^ dp| ≤ 1 / 2 := h
    _ = 1 / (2 * 10 ^ dp) * 10 ^ dp := by field_simp

theorem roundHalfUpDp_sub_abs_le (x : ℚ) (dp : ℕ) :
    |roundHalfUpDp x dp - x| ≤ 1 / (2 * 10 ^ dp) := by
  unfold roundHalfUpDp
  have hp : (0 : ℚ) < 10 ^ dp := by positivity
  have h := halfUpInt_sub_abs_le (x * 10 ^ dp)
  have key : (halfUpInt (x * 10 ^ dp) : ℚ) / 10 ^ dp - x
      = ((halfUpInt (x * 10 ^ dp) : ℚ) - x * 10 ^ dp) / 10 ^ dp := by
    field_simp
    ring
  rw [key, abs_div, abs_of_pos hp, div_le_iff₀ hp]
  calc |(halfUpInt (x * 10 ^ dp) : ℚ) - x * 10 ^ dp| ≤ 1 / 2 := h
    _ = 1 / (2 * 10 ^ dp) * 10 ^ dp := by field_simp

/-- C5 counterexample: the claim states to_base rounds half-up, but the
plain round() call in forms.py rounds half-even; at quantity 0.001 with
conversion factor 0.5 the product 0.0005 rounds to 0 in the code while the
half-up rule of the claim yields 0.001. -/
theorem C5_counterexample :
    to_base (1 / 1000) (PyUnit.mk 0 (1 / 2)) ≠ to_base_spec (1 / 1000) (PyUnit.mk 0 (1 / 2))
      ∧ to_base (1 / 1000) (PyUnit.mk 0 (1 / 2)) = 0
      ∧ to_base_spec (1 / 1000) (PyUnit.mk 0 (1 / 2)) = 1 / 1000 := by
  have h1 : to_base (1 / 1000) (PyUnit.mk 0 (1 / 2)) = 0 := by
    unfold to_base roundHalfEvenDp halfEvenInt
    norm_num
  have h2 : to_base_spec (1 / 1000) (PyUnit.mk 0 (1 / 2)) = 1 / 1000 := by
    unfold to_base_spec roundHalfUpDp halfUpInt
    norm_num
  refine ⟨?_, h1, h2⟩
  rw [h1, h2]
  norm_num

/-- C5 (amended): conversion to base units multiplies by the unit's factor
and rounds to 3 decimal places to the nearest representable value with
ties going to the even thousandths digit (banker's rounding), rather than
the half-up rounding stated by the spec: the result is a multiple of
0.001, differs from the exact product by at most 0.0005, and a difference
of exactly 0.0005 only ever rounds to an even multiple. -/
theorem C5_to_base_half_even (q : ℚ) (u : PyUnit) :
    ∃ m : ℤ, to_base q u = m / 1000 ∧ |to_base q u - q * u.convert| ≤ 1 / 2000 ∧
      (|to_base q u - q * u.convert| = 1 / 2000 → m % 2 = 0) := by
  refine ⟨halfEvenInt (q * u.convert * 10 ^ 3), ?_, ?_, ?_⟩
  · unfold to_base roundHalfEvenDp
    norm_num
  · have := roundHalfEvenDp_sub_abs_le (q * u.convert) 3
    unfold to_base
    calc |roundHalfEvenDp (q * u.convert) 3 - q * u.convert| ≤ 1 / (2 * 10 ^ 3) := this
      _ = 1 / 2000 := by norm_num
  · intro h
    apply halfEvenInt_tie_even
    unfold to_base roundHalfEvenDp at h
    have hx : (halfEvenInt (q * u.convert * 10 ^ 3) : ℚ) / 10 ^ 3 - q * u.convert
        = ((halfEvenInt (q * u.convert * 10 ^ 3) : ℚ) - q * u.convert * 10 ^ 3) / 10 ^ 3 := by
      field_simp
      ring
    rw [hx, abs_div, show |((10 : ℚ) ^ 3)| = 1000 by norm_num,
      div_eq_iff (by norm_num : (1000 : ℚ) ≠ 0)] at h
    norm_num at h
    exact h

/-- C5 witness: the amended statement evaluated at quantity 0.001 and
conversion factor 0.5. -/
theorem C5_to_base_half_even_witness :
    ∃ m : ℤ, to_base (1 / 1000) (PyUnit.mk 0 (1 / 2)) = m / 1000 ∧
      |to_base (1 / 1000) (PyUnit.mk 0 (1 / 2)) - (1 / 1000) * (1 / 2)| ≤ 1 / 2000 ∧
      (|to_base (1 / 1000) (PyUnit.mk 0 (1 / 2)) - (1 / 1000) * (1 / 2)| = 1 / 2000 → m % 2 = 0) :=
  C5_to_base_half_even (1 / 1000) (PyUnit.mk 0 (1 / 2))

/-- C9: converting a quantity to base units and back recovers it up to the
3-decimal-place rounding tolerance of to_base, scaled through the
conversion factor: the round trip lands within 0.0005 / convert of the
original quantity. -/
theorem C9_round_trip (u : PyUnit) (q : ℚ) (hc : 0 < u.convert) (hq : 0 ≤ q) :
    |from_base (to_base q u) u - q| ≤ 1 / 2000 / u.convert := by
  unfold from_base
  have key : to_base q u / u.convert - q = (to_base q u - q * u.convert) / u.convert := by
    field_simp
    ring
  rw [key, abs_div, abs_of_pos hc]
  gcongr
  have := roundHalfEvenDp_sub_abs_le (q * u.convert) 3
  unfold to_base
  calc |roundHalfEvenDp (q * u.convert) 3 - q * u.convert| ≤ 1 / (2 * 10 ^ 3) := this
    _ = 1 / 2000 := by norm_num

/-- C9 witness: the round trip at quantity 2 with conversion factor 0.5. -/
theorem C9_round_trip_witness :
    |from_base (to_base 2 (PyUnit.mk 0 (1 / 2))) (PyUnit.mk 0 (1 / 2)) - 2|
      ≤ 1 / 2000 / (PyUnit.mk 0 (1 / 2)).convert :=
  C9_round_trip (PyUnit.mk 0 (1 / 2)) 2 (by norm_num) (by norm_num)

theorem consecPairs_eq_nil_iff (rs : List (ℚ × ℚ)) : consecPairs rs = [] ↔ rs.length < 2 := by
  match rs with
  | [] => simp [consecPairs]
  | [a] => simp [consecPairs]
  | a :: b :: t => simp [consecPairs]

theorem pooledDrop_nonneg (rs : List (ℚ × ℚ)) : 0 ≤ pooledDrop rs := by
  apply List.sum_nonneg
  intro x hx
  obtain ⟨p, _, rfl⟩ := List.mem_map.mp hx
  exact le_max_right _ 0

theorem pooledElapsed_cons (a b : ℚ × ℚ) (t : List (ℚ × ℚ)) :
    pooledElapsed (a :: b :: t) = (b.2 - a.2) + pooledElapsed (b :: t) := by
  simp [pooledElapsed, consecPairs]

theorem pooledElapsed_nonneg :
    ∀ rs : List (ℚ × ℚ), List.Chain' (fun a b => a.2 < b.2) rs → 0 ≤ pooledElapsed rs
  | [], _ => by simp [pooledElapsed, consecPairs]
  | [a], _ => by simp [pooledElapsed, consecPairs]
  | a :: b :: t, h => by
      have hab : a.2 < b.2 := (List.chain'_cons.mp h).1
      have ih := pooledElapsed_nonneg (b :: t) (List.chain'_cons.mp h).2
      rw [pooledElapsed_cons]
      linarith

theorem pooledElapsed_pos (rs : List (ℚ × ℚ))
    (h : List.Chain' (fun a b => a.2 < b.2) rs) (h2 : 2 ≤ rs.length) :
    0 < pooledElapsed rs := by
  match rs, h2 with
  | a :: b :: t, _ =>
      have hab : a.2 < b.2 := (List.chain'_cons.mp h).1
      have ih := pooledElapsed_nonneg (b :: t) (List.chain'_cons.mp h).2
      rw [pooledElapsed_cons]
      linarith

/-- C2: over a sequence of records with strictly increasing timestamps,
the estimator is undefined exactly when there are fewer than two records
or the pooled numerator (the sum over consecutive pairs of
max(q0 - q1, 0)) is zero, and otherwise returns the single pooled rate
(sum of drops) / (sum of elapsed seconds) * 86400. -/
theorem C2_pooled_rate (rs : List (ℚ × ℚ))
    (hasc : List.Chain' (fun a b => a.2 < b.2) rs) :
    (average_use rs = none ↔ rs.length < 2 ∨ pooledDrop rs = 0) ∧
    (2 ≤ rs.length → pooledDrop rs ≠ 0 →
      average_use rs = some (pooledDrop rs / pooledElapsed rs * 86400)) := by
  by_cases hl : rs.length < 2
  · have hnil : consecPairs rs = [] := (consecPairs_eq_nil_iff rs).mpr hl
    constructor
    · unfold average_use
      rw [hnil]
      simp [hl]
    · intro h2
      omega
  · obtain ⟨p, ps, hcp⟩ : ∃ p ps, consecPairs rs = p :: ps := by
      cases hc : consecPairs rs with
      | nil => exact absurd ((consecPairs_eq_nil_iff rs).mp hc) hl
      | cons p ps => exact ⟨p, ps, rfl⟩
    have hpos := pooledElapsed_pos rs hasc (by omega)
    constructor
    · unfold average_use
      rw [hcp]
      by_cases hd : pooledDrop rs = 0
      · simp [hd, hl]
      · have hv : pooledDrop rs / pooledElapsed rs * 86400 ≠ 0 :=
          mul_ne_zero (div_ne_zero hd (ne_of_gt hpos)) (by norm_num)
        simp [hv, hd, hl]
    · intro _ hd
      have hv : pooledDrop rs / pooledElapsed rs * 86400 ≠ 0 :=
        mul_ne_zero (div_ne_zero hd (ne_of_gt hpos)) (by norm_num)
      unfold average_use
      rw [hcp, if_neg hv]

/-- C2 witness: two records one day apart dropping from 10 to 7 yield the
pooled rate, which evaluates to 3 per day. -/
theorem C2_pooled_rate_witness :
    average_use [((10 : ℚ), (0 : ℚ)), (7, 86400)]
        = some (pooledDrop [((10 : ℚ), (0 : ℚ)), (7, 86400)]
            / pooledElapsed [((10 : ℚ), (0 : ℚ)), (7, 86400)] * 86400)
      ∧ pooledDrop [((10 : ℚ), (0 : ℚ)), (7, 86400)]
            / pooledElapsed [((10 : ℚ), (0 : ℚ)), (7, 86400)] * 86400 = 3 := by
  have hd : pooledDrop [((10 : ℚ), (0 : ℚ)), (7, 86400)] = 3 := by
    simp [pooledDrop, consecPairs]
    norm_num
  have he : pooledElapsed [((10 : ℚ), (0 : ℚ)), (7, 86400)] = 86400 := by
    simp [pooledElapsed, consecPairs]
  refine ⟨(C2_pooled_rate _ ?_).2 (by norm_num) (by rw [hd]; norm_num), ?_⟩
  · simp [List.chain'_cons]
  · rw [hd, he]
    norm_num

theorem average_use_ne_zero (rs : List (ℚ × ℚ)) (a : ℚ) (h : average_use rs = some a) :
    a ≠ 0 := by
  unfold average_use at h
  split at h
  · exact absurd h (by simp)
  · dsimp only at h
    split at h
    · exact absurd h (by simp)
    · next hv =>
        rw [Option.some_inj] at h
        subst h
        exact hv

/-- C7: the stock-out projection is defined exactly when a latest record
exists with nonzero quantity and the estimator produced a rate; when
defined it equals the latest timestamp plus quantity / rate days, and
when any precondition fails it is the absent value none rather than an
error (the model is a total function into Option). -/
theorem C7_stockout (latest : Option (ℚ × ℚ)) (rs : List (ℚ × ℚ)) :
    ((expected_end latest (average_use rs)).isSome ↔
      ∃ r, latest = some r ∧ r.1 ≠ 0 ∧ average_use rs ≠ none) ∧
    (∀ r a, latest = some r → r.1 ≠ 0 → average_use rs = some a →
      expected_end latest (average_use rs) = some (r.2 + r.1 / a * 86400)) := by
  constructor
  · cases latest with
    | none => simp [expected_end]
    | some r =>
        cases hav : average_use rs with
        | none => simp [expected_end]
        | some a =>
            have ha := average_use_ne_zero rs a hav
            by_cases hq : r.1 = 0
            · simp [expected_end, hq]
            · simp [expected_end, hq, ha]
  · intro r a hl hq hav
    subst hl
    rw [hav]
    have ha := average_use_ne_zero rs a hav
    simp [expected_end, hq, ha]

theorem average_use_two_records :
    average_use [((10 : ℚ), (0 : ℚ)), (7, 86400)] = some 3 := by
  have hd : pooledDrop [((10 : ℚ), (0 : ℚ)), (7, 86400)] = 3 := by
    simp [pooledDrop, consecPairs]
    norm_num
  have he : pooledElapsed [((10 : ℚ), (0 : ℚ)), (7, 86400)] = 86400 := by
    simp [pooledElapsed, consecPairs]
  unfold average_use
  rw [show consecPairs [((10 : ℚ), (0 : ℚ)), (7, 86400)]
      = [(((10 : ℚ), (0 : ℚ)), ((7 : ℚ), (86400 : ℚ)))] from rfl]
  dsimp only
  rw [hd, he]
  norm_num

/-- C7 witness: a latest record of quantity 5 at second 1000 with the
two-record history of rate 3 projects to 1000 + 5/3 days. -/
theorem C7_stockout_witness :
    expected_end (some ((5 : ℚ), (1000 : ℚ)))
        (average_use [((10 : ℚ), (0 : ℚ)), (7, 86400)])
      = some (1000 + 5 / 3 * 86400) :=
  (C7_stockout _ _).2 (5, 1000) 3 rfl (by norm_num) average_use_two_records

/-- C4: record submission merges into the latest record when it is younger
than one minute: the stored row count is unchanged and the latest row gets
the new quantity and timestamp; at one minute or older a new row is
appended.  Concretely, two submissions from an empty history 30 seconds
apart leave exactly one record holding the latest values, and 61 seconds
apart leave two records. -/
theorem C4_double_submission (i : ℕ) :
    (∀ (records : List RecordRow) (latest : RecordRow) (q : ℚ) (note : String) (now : ℚ),
      records.getLast? = some latest → now - latest.added < 60 →
      add_record_save records i q note now
          = records.dropLast ++ [⟨latest.item, q, now, latest.note⟩] ∧
        (add_record_save records i q note now).length = records.length) ∧
    (∀ (records : List RecordRow) (latest : RecordRow) (q : ℚ) (note : String) (now : ℚ),
      records.getLast? = some latest → 60 ≤ now - latest.added →
      add_record_save records i q note now = records ++ [⟨i, q, now, note⟩] ∧
        (add_record_save records i q note now).length = records.length + 1) ∧
    (∀ (q1 q2 : ℚ) (n1 n2 : String) (t : ℚ),
      add_record_save (add_record_save [] i q1 n1 t) i q2 n2 (t + 30)
        = [⟨i, q2, t + 30, n1⟩]) ∧
    (∀ (q1 q2 : ℚ) (n1 n2 : String) (t : ℚ),
      add_record_save (add_record_save [] i q1 n1 t) i q2 n2 (t + 61)
        = [⟨i, q1, t, n1⟩, ⟨i, q2, t + 61, n2⟩]) := by
  have hnil : ∀ (q : ℚ) (note : String) (now : ℚ),
      add_record_save [] i q note now = [⟨i, q, now, note⟩] := by
    intro q note now
    simp [add_record_save]
  refine ⟨?_, ?_, ?_, ?_⟩
  · intro records latest q note now hlast hlt
    have hne : records ≠ [] := by
      intro h
      rw [h] at hlast
      simp at hlast
    unfold add_record_save
    rw [hlast]
    dsimp only
    rw [if_pos (show now - latest.added < MIN_DOUBLE_POST by unfold MIN_DOUBLE_POST; exact hlt)]
    constructor
    · rfl
    · have := List.length_dropLast records
      have hpos : 0 < records.length := List.length_pos.mpr hne
      simp only [List.length_append, this, List.length_singleton]
      omega
  · intro records latest q note now hlast hge
    unfold add_record_save
    rw [hlast]
    dsimp only
    rw [if_neg (show ¬ now - latest.added < MIN_DOUBLE_POST by unfold MIN_DOUBLE_POST; linarith)]
    simp
  · intro q1 q2 n1 n2 t
    rw [hnil]
    unfold add_record_save
    simp only [List.getLast?_singleton]
    rw [if_pos (by unfold MIN_DOUBLE_POST; norm_num)]
    rfl
  · intro q1 q2 n1 n2 t
    rw [hnil]
    unfold add_record_save
    simp only [List.getLast?_singleton]
    rw [if_neg (by unfold MIN_DOUBLE_POST; norm_num)]
    rfl

/-- C4 witness: the merge rule applied to a one-record history at 30
seconds.  The theorem is applied at item 0, a concrete stored record and a
submission 30 seconds later. -/
theorem C4_double_submission_witness :
    add_record_save [RecordRow.mk 0 1 0 "old"] 0 2 "new" 30
        = [RecordRow.mk 0 1 0 "old"].dropLast ++ [RecordRow.mk 0 2 30 "old"] ∧
      (add_record_save [RecordRow.mk 0 1 0 "old"] 0 2 "new" 30).length
        = [RecordRow.mk 0 1 0 "old"].length :=
  (C4_double_submission 0).1 [RecordRow.mk 0 1 0 "old"] (RecordRow.mk 0 1 0 "old")
    2 "new" 30 rfl (by norm_num)

/-- C10: when a submission merges into the most recent record, only that
record's quantity and added fields change: its note and item association
keep their stored values and the submitted note is discarded; the bulk
update path writes merged records back identically, differing from the
stored row only in added and quantity (the fields bulk_update writes). -/
theorem C10_merge_frame :
    (∀ (records : List RecordRow) (latest : RecordRow) (i : ℕ) (q : ℚ)
        (note : String) (now : ℚ),
      records.getLast? = some latest → now - latest.added < 60 →
      ∃ upd, add_record_save records i q note now = records.dropLast ++ [upd] ∧
        upd.note = latest.note ∧ upd.item = latest.item ∧
        upd.quantity = q ∧ upd.added = now) ∧
    (∀ (l : RecordRow) (i : ℕ) (v : ℚ) (note : String) (now : ℚ),
      now - l.added < 60 →
      bulk_save_record (some l) i v note now = { l with added := now, quantity := v } ∧
        (bulk_save_record (some l) i v note now).note = l.note ∧
        (bulk_save_record (some l) i v note now).item = l.item ∧
        (bulk_save_record (some l) i v note now).quantity = v ∧
        (bulk_save_record (some l) i v note now).added = now) := by
  constructor
  · intro records latest i q note now hlast hlt
    refine ⟨⟨latest.item, q, now, latest.note⟩, ?_, rfl, rfl, rfl, rfl⟩
    unfold add_record_save
    rw [hlast]
    dsimp only
    rw [if_pos (show now - latest.added < MIN_DOUBLE_POST by unfold MIN_DOUBLE_POST; exact hlt)]
  · intro l i v note now hlt
    have h : bulk_save_record (some l) i v note now
        = { l with added := now, quantity := v } := by
      unfold bulk_save_record
      dsimp only
      rw [if_pos (show now - l.added < MIN_DOUBLE_POST by unfold MIN_DOUBLE_POST; exact hlt)]
    rw [h]
    exact ⟨rfl, rfl, rfl, rfl, rfl⟩

/-- C10 witness: the frame statement applied to a one-record history and a
merging submission. -/
theorem C10_merge_frame_witness :
    ∃ upd, add_record_save [RecordRow.mk 7 1 0 "kept"] 7 2 "dropped" 30
        = [RecordRow.mk 7 1 0 "kept"].dropLast ++ [upd] ∧
      upd.note = (RecordRow.mk 7 1 0 "kept").note ∧
      upd.item = (RecordRow.mk 7 1 0 "kept").item ∧
      upd.quantity = 2 ∧ upd.added = 30 :=
  C10_merge_frame.1 [RecordRow.mk 7 1 0 "kept"] (RecordRow.mk 7 1 0 "kept")
    7 2 "dropped" 30 rfl (by norm_num)

theorem roundHalfUpCtx_ok_of_lt (q : ℚ) (dp : ℕ)
    (hb : |halfUpInt (q * 10 ^ dp)| < 10 ^ 28) :
    roundHalfUpCtx q dp = .ok (roundHalfUpDp q dp) := by
  unfold roundHalfUpCtx roundHalfUpDp
  rw [if_neg (not_le.mpr hb)]

theorem roundHalfUpCtx_ok_val (q : ℚ) (dp : ℕ) (r : ℚ)
    (h : roundHalfUpCtx q dp = .ok r) : r = roundHalfUpDp q dp := by
  unfold roundHalfUpCtx at h
  split at h
  · exact Except.noConfusion h
  · rw [Except.ok.injEq] at h
    unfold roundHalfUpDp
    exact h.symm

theorem halfUpInt_abs_le (x : ℚ) : |(halfUpInt x : ℚ)| ≤ |x| + 1 / 2 := by
  have h := halfUpInt_sub_abs_le x
  have h2 : |(halfUpInt x : ℚ)| ≤ |(halfUpInt x : ℚ) - x| + |x| := by
    have h3 := abs_add ((halfUpInt x : ℚ) - x) x
    have he : (halfUpInt x : ℚ) - x + x = (halfUpInt x : ℚ) := by ring
    rw [he] at h3
    exact h3
  linarith

theorem abs_le_halfUpInt (x : ℚ) : |x| ≤ |(halfUpInt x : ℚ)| + 1 / 2 := by
  have h := halfUpInt_sub_abs_le x
  have h2 : |x| ≤ |x - (halfUpInt x : ℚ)| + |(halfUpInt x : ℚ)| := by
    have h3 := abs_add (x - (halfUpInt x : ℚ)) (halfUpInt x : ℚ)
    have he : x - (halfUpInt x : ℚ) + (halfUpInt x : ℚ) = x := by ring
    rw [he] at h3
    exact h3
  rw [abs_sub_comm] at h2
  linarith

theorem ctx_bound_two (q : ℚ) (hb : |halfUpInt (q * 10 ^ 3)| < 10 ^ 28) :
    |halfUpInt (q * 10 ^ 2)| < 10 ^ 28 := by
  have hbq : |(halfUpInt (q * 10 ^ 3) : ℚ)| < 10 ^ 28 := by
    rw [← Int.cast_abs]
    exact_mod_cast hb
  have h1 := abs_le_halfUpInt (q * 10 ^ 3)
  have h2 := halfUpInt_abs_le (q * 10 ^ 2)
  have h3 : |q * 10 ^ 2| * 10 = |q * 10 ^ 3| := by
    rw [abs_mul, abs_mul, abs_of_nonneg (show (0 : ℚ) ≤ 10 ^ 2 by norm_num),
      abs_of_nonneg (show (0 : ℚ) ≤ 10 ^ 3 by norm_num)]
    ring
  have hq2 : |(halfUpInt (q * 10 ^ 2) : ℚ)| < 10 ^ 28 := by
    set A := |q * 10 ^ 2| with hA
    set B := |q * 10 ^ 3| with hB
    set X := |(halfUpInt (q * 10 ^ 3) : ℚ)| with hX
    set Y := |(halfUpInt (q * 10 ^ 2) : ℚ)| with hY
    linarith
  rw [← Int.cast_abs] at hq2
  exact_mod_cast hq2

theorem round_quantity_prefers (q : ℚ)
    (hb : |halfUpInt (q * 10 ^ 3)| < 10 ^ 28)
    (h : |roundHalfUpDp q 2 - roundHalfUpDp q 3| ≤ 1 / 1000) :
    round_quantity (.fin q) = .ok (roundHalfUpDp q 2) := by
  unfold round_quantity
  dsimp only
  rw [roundHalfUpCtx_ok_of_lt q 3 hb]
  dsimp only
  rw [roundHalfUpCtx_ok_of_lt q 2 (ctx_bound_two q hb)]
  dsimp only
  rw [if_pos h]

theorem round_quantity_keeps (q : ℚ)
    (hb : |halfUpInt (q * 10 ^ 3)| < 10 ^ 28)
    (h : ¬ |roundHalfUpDp q 2 - roundHalfUpDp q 3| ≤ 1 / 1000) :
    round_quantity (.fin q) = .ok (roundHalfUpDp q 3) := by
  unfold round_quantity
  dsimp only
  rw [roundHalfUpCtx_ok_of_lt q 3 hb]
  dsimp only
  rw [roundHalfUpCtx_ok_of_lt q 2 (ctx_bound_two q hb)]
  dsimp only
  rw [if_neg h]

theorem round_quantity_overflow (q : ℚ)
    (hb : 10 ^ 28 ≤ |halfUpInt (q * 10 ^ 3)|) :
    round_quantity (.fin q) = .error .invalidOperation := by
  have h3 : roundHalfUpCtx q 3 = .error .invalidOperation := by
    unfold roundHalfUpCtx
    rw [if_pos hb]
  unfold round_quantity
  dsimp only
  rw [h3]

theorem round_quantity_ok_cases (q r : ℚ) (h : round_quantity (.fin q) = .ok r) :
    r = roundHalfUpDp q 2 ∨ r = roundHalfUpDp q 3 := by
  unfold round_quantity at h
  dsimp only at h
  cases h3 : roundHalfUpCtx q 3 with
  | error e =>
      rw [h3] at h
      exact Except.noConfusion h
  | ok r0 =>
      rw [h3] at h
      dsimp only at h
      cases h2 : roundHalfUpCtx q 2 with
      | error e =>
          rw [h2] at h
          exact Except.noConfusion h
      | ok r1 =>
          rw [h2] at h
          dsimp only at h
          rw [Except.ok.injEq] at h
          have e0 := roundHalfUpCtx_ok_val q 3 r0 h3
          have e1 := roundHalfUpCtx_ok_val q 2 r1 h2
          subst e0
          subst e1
          by_cases hc : |roundHalfUpDp q 2 - roundHalfUpDp q 3| ≤ 1 / 1000
          · rw [if_pos hc] at h
            exact Or.inl h.symm
          · rw [if_neg hc] at h
            exact Or.inr h.symm

theorem fq_eval_12345 : format_quantity (.fin (2469 / 2000)) false = .ok ("1.235") := by
  have hr0 : roundHalfUpDp (2469 / 2000) 3 = 247 / 200 := by
    unfold roundHalfUpDp halfUpInt
    norm_num
  have hr1 : roundHalfUpDp (2469 / 2000) 2 = 123 / 100 := by
    unfold roundHalfUpDp halfUpInt
    norm_num
  have hb : |halfUpInt ((2469 : ℚ) / 2000 * 10 ^ 3)| < 10 ^ 28 := by
    have hbe : halfUpInt ((2469 : ℚ) / 2000 * 10 ^ 3) = 1235 := by
      unfold halfUpInt
      norm_num
    rw [hbe, abs_of_nonneg (by norm_num)]
    norm_num
  have hrq : round_quantity (.fin (2469 / 2000)) = .ok (247 / 200) := by
    rw [round_quantity_keeps (2469 / 2000) hb (by rw [hr0, hr1, abs_le]; norm_num), hr0]
  unfold format_quantity
  rw [hrq]
  have hf : fmtG (247 / 200) false = gChars 1235 := by
    unfold fmtG
    rw [if_neg (by norm_num), if_neg (by norm_num)]
    simp only [Bool.false_eq_true, if_false, List.nil_append]
    congr 1
    rw [abs_of_pos (by norm_num)]
    norm_num
    decide
  simp only [Except.map, hf]
  decide

theorem fq_eval_1999 : format_quantity (.fin (1999 / 1000)) false = .ok ("2") := by
  have hr0 : roundHalfUpDp (1999 / 1000) 3 = 1999 / 1000 := by
    unfold roundHalfUpDp halfUpInt
    norm_num
  have hr1 : roundHalfUpDp (1999 / 1000) 2 = 2 := by
    unfold roundHalfUpDp halfUpInt
    norm_num
  have hb : |halfUpInt ((1999 : ℚ) / 1000 * 10 ^ 3)| < 10 ^ 28 := by
    have hbe : halfUpInt ((1999 : ℚ) / 1000 * 10 ^ 3) = 1999 := by
      unfold halfUpInt
      norm_num
    rw [hbe, abs_of_nonneg (by norm_num)]
    norm_num
  have hrq : round_quantity (.fin (1999 / 1000)) = .ok 2 := by
    rw [round_quantity_prefers (1999 / 1000) hb (by rw [hr0, hr1, abs_le]; norm_num), hr1]
  unfold format_quantity
  rw [hrq]
  have hf : fmtG 2 false = gChars 2000 := by
    unfold fmtG
    rw [if_neg (by norm_num), if_neg (by norm_num)]
    simp only [Bool.false_eq_true, if_false, List.nil_append]
    congr 1
    rw [abs_of_pos (by norm_num)]
    norm_num
    decide
  simp only [Except.map, hf]
  decide

theorem fq_eval_neg : format_quantity (.fin (-617 / 500)) false = .ok ("−1.234") := by
  have hr0 : roundHalfUpDp (-617 / 500) 3 = -617 / 500 := by
    unfold roundHalfUpDp halfUpInt
    norm_num
  have hr1 : roundHalfUpDp (-617 / 500) 2 = -123 / 100 := by
    unfold roundHalfUpDp halfUpInt
    norm_num
  have hb : |halfUpInt ((-617 : ℚ) / 500 * 10 ^ 3)| < 10 ^ 28 := by
    have hbe : halfUpInt ((-617 : ℚ) / 500 * 10 ^ 3) = -1234 := by
      unfold halfUpInt
      norm_num
    rw [hbe, abs_of_nonpos (by norm_num)]
    norm_num
  have hrq : round_quantity (.fin (-617 / 500)) = .ok (-617 / 500) := by
    rw [round_quantity_keeps (-617 / 500) hb (by rw [hr0, hr1, abs_le]; norm_num), hr0]
  unfold format_quantity
  rw [hrq]
  have hf : fmtG (-617 / 500) false = '-' :: gChars 1234 := by
    unfold fmtG
    rw [if_neg (by norm_num), if_pos (by norm_num)]
    have : (⌊|(-617 : ℚ) / 500| * 1000⌋).toNat = 1234 := by
      rw [abs_of_neg (by norm_num)]
      norm_num
      decide
    rw [this]
    rfl
  simp only [Except.map, hf]
  decide

theorem fq_eval_zero : format_quantity (.fin 0) true = .ok ("+0") := by
  have hr1 : roundHalfUpDp 0 2 = 0 := by
    unfold roundHalfUpDp halfUpInt
    norm_num
  have hr0 : roundHalfUpDp 0 3 = 0 := by
    unfold roundHalfUpDp halfUpInt
    norm_num
  have hb : |halfUpInt ((0 : ℚ) * 10 ^ 3)| < 10 ^ 28 := by
    have hbe : halfUpInt ((0 : ℚ) * 10 ^ 3) = 0 := by
      unfold halfUpInt
      norm_num
    rw [hbe, abs_of_nonneg (by norm_num)]
    norm_num
  have hrq : round_quantity (.fin 0) = .ok 0 := by
    rw [round_quantity_prefers 0 hb (by rw [hr0, hr1]; norm_num), hr1]
  unfold format_quantity
  rw [hrq]
  have hf : fmtG 0 true = ['+', '0'] := by
    unfold fmtG
    rw [if_pos rfl]
    rfl
  simp only [Except.map, hf]
  decide

/-- C3 counterexample: the finite decimal 10 ^ 25 refutes the unqualified
rounding rule: quantizing it to 3 decimal places needs 29 significant
digits, more than the default decimal context's 28, so format_quantity
raises InvalidOperation instead of returning a rounded string. -/
theorem C3_counterexample :
    format_quantity (.fin (10 ^ 25)) false = .error .invalidOperation := by
  have hbe : halfUpInt ((10 : ℚ) ^ 25 * 10 ^ 3) = 10 ^ 28 := by
    unfold halfUpInt
    norm_num
  have hover : round_quantity (.fin ((10 : ℚ) ^ 25)) = .error .invalidOperation := by
    apply round_quantity_overflow
    exact le_of_eq (by rw [hbe]; exact (abs_of_nonneg (by norm_num)).symm)
  unfold format_quantity
  rw [hover]
  rfl

/-- C3 (amended): as long as the half-up 3-place rounding stays below the
28 significant digit precision of the default decimal context,
format_quantity rounds half-up to 3 decimal places but prefers the
half-up 2-place rounding whenever the two roundings differ by at most one
unit in the third decimal place; on the spec's test table it renders
1.2345 as 1.235, 1.999 as 2, -1.234 with a true Unicode minus sign, and
zero with a plus sign in delta mode.  Beyond that precision the quantize
step raises InvalidOperation, as the counterexample at 10 ^ 25 shows. -/
theorem C3_rounding_rule :
    (∀ q : ℚ, |halfUpInt (q * 10 ^ 3)| < 10 ^ 28 →
      |roundHalfUpDp q 2 - roundHalfUpDp q 3| ≤ 1 / 1000 →
      round_quantity (.fin q) = .ok (roundHalfUpDp q 2)) ∧
    (∀ q : ℚ, |halfUpInt (q * 10 ^ 3)| < 10 ^ 28 →
      ¬ |roundHalfUpDp q 2 - roundHalfUpDp q 3| ≤ 1 / 1000 →
      round_quantity (.fin q) = .ok (roundHalfUpDp q 3)) ∧
    format_quantity (.fin (2469 / 2000)) false = .ok ("1.235") ∧
    format_quantity (.fin (1999 / 1000)) false = .ok ("2") ∧
    format_quantity (.fin (-617 / 500)) false = .ok ("−1.234") ∧
    format_quantity (.fin 0) true = .ok ("+0") :=
  ⟨round_quantity_prefers, round_quantity_keeps,
    fq_eval_12345, fq_eval_1999, fq_eval_neg, fq_eval_zero⟩

theorem rounding_close_at_1999 :
    |roundHalfUpDp (1999 / 1000) 2 - roundHalfUpDp (1999 / 1000) 3| ≤ 1 / 1000 := by
  have hr0 : roundHalfUpDp (1999 / 1000) 3 = 1999 / 1000 := by
    unfold roundHalfUpDp halfUpInt
    norm_num
  have hr1 : roundHalfUpDp (1999 / 1000) 2 = 2 := by
    unfold roundHalfUpDp halfUpInt
    norm_num
  rw [hr0, hr1, abs_le]
  norm_num

theorem bound_at_1999 : |halfUpInt ((1999 : ℚ) / 1000 * 10 ^ 3)| < 10 ^ 28 := by
  have hbe : halfUpInt ((1999 : ℚ) / 1000 * 10 ^ 3) = 1999 := by
    unfold halfUpInt
    norm_num
  rw [hbe, abs_of_nonneg (by norm_num)]
  norm_num

/-- C3 witness: the preference rule applied at 1.999, which rounds well
below the context precision and whose 2-place rounding 2.00 is one
thousandth away from the 3-place rounding 1.999. -/
theorem C3_rounding_rule_witness :
    round_quantity (.fin (1999 / 1000)) = .ok (roundHalfUpDp (1999 / 1000) 2) :=
  C3_rounding_rule.1 (1999 / 1000) bound_at_1999 rounding_close_at_1999

theorem mem_natDigitsAux (fuel : ℕ) :
    ∀ (n : ℕ) (c : Char), c ∈ natDigitsAux fuel n → ∃ d, d < 10 ∧ c = digitChar d := by
  induction fuel with
  | zero => intro n c h; simp [natDigitsAux] at h
  | succ f ih =>
      intro n c h
      unfold natDigitsAux at h
      by_cases hn : n < 10
      · rw [if_pos hn] at h
        simp at h
        exact ⟨n, hn, h⟩
      · rw [if_neg hn] at h
        rcases List.mem_append.mp h with h1 | h1
        · exact ih (n / 10) c h1
        · simp at h1
          exact ⟨n % 10, Nat.mod_lt _ (by norm_num), h1⟩

theorem digit_not_e : ∀ d, d < 10 → digitChar d ≠ 'e' := by decide

theorem mem_stripZeros (l : List Char) (c : Char) (h : c ∈ stripZeros l) : c ∈ l := by
  unfold stripZeros at h
  rw [List.mem_reverse] at h
  exact List.mem_reverse.mp ((List.dropWhile_sublist _).subset h)

theorem mem_padZeros (f : ℕ) (l : List Char) (c : Char) (h : c ∈ padZeros f l) :
    c = digitChar 0 ∨ c ∈ l := by
  unfold padZeros at h
  rcases List.mem_append.mp h with h1 | h1
  · exact Or.inl (List.eq_of_mem_replicate h1)
  · exact Or.inr h1

theorem fixedChars_not_e (a f : ℕ) (c : Char) (h : c ∈ fixedChars a f) : c ≠ 'e' := by
  unfold fixedChars at h
  dsimp only at h
  rcases List.mem_append.mp h with h1 | h1
  · obtain ⟨d, hd, rfl⟩ := mem_natDigitsAux 40 _ c h1
    exact digit_not_e d hd
  · split at h1
    · simp at h1
    · rcases List.mem_cons.mp h1 with h2 | h2
      · subst h2
        decide
      · rcases mem_padZeros _ _ _ (mem_stripZeros _ _ h2) with h3 | h3
        · subst h3
          exact digit_not_e 0 (by norm_num)
        · obtain ⟨d, hd, rfl⟩ := mem_natDigitsAux 40 _ c h3
          exact digit_not_e d hd

theorem natDigitsAux_length_le (fuel : ℕ) :
    ∀ n j : ℕ, 1 ≤ j → n < 10 ^ j → j ≤ fuel → (natDigitsAux fuel n).length ≤ j := by
  induction fuel with
  | zero => intro n j hj _ hf; omega
  | succ f ih =>
      intro n j hj hn hf
      unfold natDigitsAux
      by_cases h10 : n < 10
      · rw [if_pos h10]
        simpa using hj
      · rw [if_neg h10]
        have hj2 : 2 ≤ j := by
          by_contra hcon
          have hj1 : j = 1 := by omega
          rw [hj1, pow_one] at hn
          omega
        have hdiv : n / 10 < 10 ^ (j - 1) := by
          rw [Nat.div_lt_iff_lt_mul (by norm_num)]
          calc n < 10 ^ j := hn
            _ = 10 ^ (j - 1) * 10 := by
                rw [← pow_succ]
                congr 1
                omega
        have := ih (n / 10) (j - 1) (by omega) hdiv (by omega)
        simp only [List.length_append, List.length_singleton]
        omega

theorem natDigitsAux_length_gt (fuel : ℕ) :
    ∀ n j : ℕ, 10 ^ j ≤ n → j < fuel → j + 1 ≤ (natDigitsAux fuel n).length := by
  induction fuel with
  | zero => intro n j _ hf; omega
  | succ f ih =>
      intro n j hn hf
      unfold natDigitsAux
      by_cases h10 : n < 10
      · rw [if_pos h10]
        have hj0 : j = 0 := by
          by_contra hcon
          have h1j : 1 ≤ j := by omega
          have : (10 : ℕ) ≤ 10 ^ j := by
            calc (10 : ℕ) = 10 ^ 1 := (pow_one 10).symm
              _ ≤ 10 ^ j := Nat.pow_le_pow_right (by norm_num) h1j
          omega
        simp [hj0]
      · rw [if_neg h10]
        simp only [List.length_append, List.length_singleton]
        cases j with
        | zero => omega
        | succ i =>
            have hd : 10 ^ i ≤ n / 10 := by
              rw [Nat.le_div_iff_mul_le (by norm_num)]
              calc 10 ^ i * 10 = 10 ^ (i + 1) := (pow_succ 10 i).symm
                _ ≤ n := hn
            have := ih (n / 10) i hd (by omega)
            omega

theorem natDigits_length_le (n j : ℕ) (hj : 1 ≤ j) (hn : n < 10 ^ j) (hf : j ≤ 40) :
    (natDigits n).length ≤ j := natDigitsAux_length_le 40 n j hj hn hf

theorem natDigits_length_gt (n j : ℕ) (hn : 10 ^ j ≤ n) (hf : j < 40) :
    j + 1 ≤ (natDigits n).length := natDigitsAux_length_gt 40 n j hn hf

theorem halfEvenDivNat_le (n d : ℕ) : halfEvenDivNat n d ≤ n / d + 1 := by
  unfold halfEvenDivNat
  split
  · omega
  · split
    · omega
    · split <;> omega

theorem halfEvenDivNat_1000_lt (n : ℕ) (hn : n < 999999999999500) :
    halfEvenDivNat n 1000 < 1000000000000 := by
  unfold halfEvenDivNat
  split
  · omega
  · split
    · omega
    · split <;> omega

theorem gChars_not_e (n : ℕ) (hn : n < 999999999999500) :
    ∀ c ∈ gChars n, c ≠ 'e' := by
  intro c hc
  unfold gChars at hc
  dsimp only at hc
  by_cases hL : (natDigits n).length ≤ 12
  · rw [if_pos hL] at hc
    exact fixedChars_not_e _ _ _ hc
  · rw [if_neg hL] at hc
    push_neg at hL
    have hn15 : n < 10 ^ 15 := by norm_num; omega
    have hL15 : (natDigits n).length ≤ 15 :=
      natDigits_length_le n 15 (by norm_num) hn15 (by norm_num)
    have hk1 : 1 ≤ (natDigits n).length - 12 := by omega
    have hk3 : (natDigits n).length - 12 ≤ 3 := by omega
    have hnk : n < 10 ^ (12 + ((natDigits n).length - 12)) := by
      by_contra hcon
      push_neg at hcon
      have := natDigits_length_gt n (12 + ((natDigits n).length - 12)) hcon (by omega)
      omega
    have hlen : (natDigits (halfEvenDivNat n (10 ^ ((natDigits n).length - 12)))).length
        ≤ 15 - ((natDigits n).length - 12) := by
      by_cases hk2 : (natDigits n).length - 12 ≤ 2
      · have hq12 : halfEvenDivNat n (10 ^ ((natDigits n).length - 12)) < 10 ^ 13 := by
          have h1 := halfEvenDivNat_le n (10 ^ ((natDigits n).length - 12))
          have h2 : n / 10 ^ ((natDigits n).length - 12) < 10 ^ 12 := by
            rw [Nat.div_lt_iff_lt_mul (by positivity)]
            calc n < 10 ^ (12 + ((natDigits n).length - 12)) := hnk
              _ = 10 ^ 12 * 10 ^ ((natDigits n).length - 12) := by rw [pow_add]
          have h3 : (10 : ℕ) ^ 12 + 1 ≤ 10 ^ 13 := by norm_num
          omega
        have := natDigits_length_le _ 13 (by norm_num) hq12 (by norm_num)
        omega
      · have hk3e : (natDigits n).length - 12 = 3 := by omega
        rw [hk3e]
        have hq12 : halfEvenDivNat n (10 ^ 3) < 10 ^ 12 := by
          have := halfEvenDivNat_1000_lt n hn
          norm_num at this ⊢
          exact this
        have := natDigits_length_le _ 12 (by norm_num) hq12 (by norm_num)
        omega
    have hX : ((natDigits (halfEvenDivNat n (10 ^ ((natDigits n).length - 12)))).length : ℤ)
        - 1 + ((((natDigits n).length - 12 : ℕ) : ℤ) - 3) < 12 := by
      have h15 : ((natDigits (halfEvenDivNat n (10 ^ ((natDigits n).length - 12)))).length : ℤ)
          ≤ 15 - (((natDigits n).length - 12 : ℕ) : ℤ) := by
        omega
      omega
    rw [if_pos hX, if_pos hk3] at hc
    exact fixedChars_not_e _ _ _ hc

theorem round_quantity_thousandth (q r : ℚ) (h : round_quantity (.fin q) = .ok r) :
    ∃ m : ℤ, r = (m : ℚ) / 1000 := by
  rcases round_quantity_ok_cases q r h with h1 | h1
  · refine ⟨10 * halfUpInt (q * 10 ^ 2), ?_⟩
    rw [h1]
    unfold roundHalfUpDp
    push_cast
    ring
  · refine ⟨halfUpInt (q * 10 ^ 3), ?_⟩
    rw [h1]
    unfold roundHalfUpDp
    norm_num

theorem round_quantity_close (q r : ℚ) (h : round_quantity (.fin q) = .ok r) :
    |r - q| ≤ 1 / 200 := by
  rcases round_quantity_ok_cases q r h with h1 | h1 <;> rw [h1]
  · calc |roundHalfUpDp q 2 - q| ≤ 1 / (2 * 10 ^ 2) := roundHalfUpDp_sub_abs_le q 2
      _ ≤ 1 / 200 := by norm_num
  · calc |roundHalfUpDp q 3 - q| ≤ 1 / (2 * 10 ^ 3) := roundHalfUpDp_sub_abs_le q 3
      _ ≤ 1 / 200 := by norm_num

theorem fmtG_not_e (m : ℤ) (hm : m.natAbs < 999999999999500) (plus : Bool) :
    ∀ c ∈ fmtG ((m : ℚ) / 1000) plus, c ≠ 'e' := by
  intro c hc
  unfold fmtG at hc
  by_cases h0 : (m : ℚ) / 1000 = 0
  · rw [if_pos h0] at hc
    cases plus <;> simp at hc <;> rcases hc with rfl | rfl <;> decide
  · rw [if_neg h0] at hc
    have key : (⌊|(m : ℚ) / 1000| * 1000⌋).toNat = m.natAbs := by
      have habs : |(m : ℚ) / 1000| * 1000 = ((m.natAbs : ℤ) : ℚ) := by
        rw [abs_div, show |(1000 : ℚ)| = 1000 by norm_num, div_mul_cancel₀ _ (by norm_num : (1000 : ℚ) ≠ 0),
          ← Int.cast_abs, Int.abs_eq_natAbs]
      rw [habs, Int.floor_intCast, Int.toNat_natCast]
    rw [key] at hc
    rcases List.mem_append.mp hc with h1 | h1
    · split at h1
      · simp at h1
        subst h1
        decide
      · split at h1
        · simp at h1
          subst h1
          decide
        · simp at h1
    · exact gChars_not_e m.natAbs hm c h1

/-- C8 counterexample: at the finite decimal 10 ^ 12 the formatter returns
the exponential-notation string 1e+12, refuting the claim that the output
is never in exponential notation for finite inputs; and at the finite
decimal 10 ^ 25 it raises InvalidOperation rather than DomainError,
refuting the claim that it never raises on finite input. -/
theorem C8_counterexample :
    format_quantity (.fin 1000000000000) false = .ok ("1e+12")
      ∧ 'e' ∈ ("1e+12" : String).data
      ∧ format_quantity (.fin (10 ^ 25)) true = .error .invalidOperation := by
  refine ⟨?_, by decide, ?_⟩
  · have hr0 : roundHalfUpDp 1000000000000 3 = 1000000000000 := by
      unfold roundHalfUpDp halfUpInt
      norm_num
    have hr1 : roundHalfUpDp 1000000000000 2 = 1000000000000 := by
      unfold roundHalfUpDp halfUpInt
      norm_num
    have hb : |halfUpInt ((1000000000000 : ℚ) * 10 ^ 3)| < 10 ^ 28 := by
      have hbe : halfUpInt ((1000000000000 : ℚ) * 10 ^ 3) = 1000000000000000 := by
        unfold halfUpInt
        norm_num
      rw [hbe, abs_of_nonneg (by norm_num)]
      norm_num
    have hrq : round_quantity (.fin 1000000000000) = .ok 1000000000000 := by
      rw [round_quantity_prefers 1000000000000 hb (by rw [hr0, hr1]; norm_num), hr1]
    unfold format_quantity
    rw [hrq]
    have hf : fmtG 1000000000000 false = gChars 1000000000000000 := by
      unfold fmtG
      rw [if_neg (by norm_num), if_neg (by norm_num)]
      simp only [Bool.false_eq_true, if_false, List.nil_append]
      congr 1
      rw [abs_of_pos (by norm_num)]
      norm_num
      decide
    simp only [Except.map, hf]
    decide
  · have hbe : halfUpInt ((10 : ℚ) ^ 25 * 10 ^ 3) = 10 ^ 28 := by
      unfold halfUpInt
      norm_num
    have hover : round_quantity (.fin ((10 : ℚ) ^ 25)) = .error .invalidOperation := by
      apply round_quantity_overflow
      exact le_of_eq (by rw [hbe]; exact (abs_of_nonneg (by norm_num)).symm)
    unfold format_quantity
    rw [hover]
    rfl

/-- C8 (amended): format_quantity fails on non-finite input, and then
always with ValueError (the DomainError of the spec); a finite decimal
yields a string whenever its half-up 3-place rounding stays below the 28
significant digit precision of the default decimal context, while a
finite value at or beyond that precision raises InvalidOperation, as the
counterexample at 10 ^ 25 shows.  A returned string stays out of
exponential notation for magnitudes up to 999999999999.49 — beyond that
the 12 significant digit budget of the %g rendering switches to
exponential notation, as the counterexample at 10 ^ 12 shows. -/
theorem C8_errors_and_notation :
    (∀ delta, format_quantity .nan delta = .error .valueError) ∧
    (∀ b delta, format_quantity (.inf b) delta = .error .valueError) ∧
    (∀ (q : ℚ) (delta : Bool), |halfUpInt (q * 10 ^ 3)| < 10 ^ 28 →
      ∃ s, format_quantity (.fin q) delta = .ok s) ∧
    (∀ (q : ℚ) (delta : Bool), 10 ^ 28 ≤ |halfUpInt (q * 10 ^ 3)| →
      format_quantity (.fin q) delta = .error .invalidOperation) ∧
    (∀ (q : ℚ) (delta : Bool) (s : String), |q| ≤ 99999999999949 / 100 →
      format_quantity (.fin q) delta = .ok s → ∀ c ∈ s.data, c ≠ 'e') := by
  refine ⟨fun _ => rfl, fun _ _ => rfl, ?_, ?_, ?_⟩
  · intro q delta hb
    by_cases hc : |roundHalfUpDp q 2 - roundHalfUpDp q 3| ≤ 1 / 1000
    · exact ⟨_, by unfold format_quantity; rw [round_quantity_prefers q hb hc]; rfl⟩
    · exact ⟨_, by unfold format_quantity; rw [round_quantity_keeps q hb hc]; rfl⟩
  · intro q delta hb
    unfold format_quantity
    rw [round_quantity_overflow q hb]
    rfl
  · intro q delta s hq hfmt c hcs
    unfold format_quantity at hfmt
    cases hr : round_quantity (.fin q) with
    | error e =>
        rw [hr] at hfmt
        exact Except.noConfusion hfmt
    | ok r =>
        rw [hr] at hfmt
        simp only [Except.map, Except.ok.injEq] at hfmt
        obtain ⟨m, hm⟩ := round_quantity_thousandth q r hr
        have hclose := round_quantity_close q r hr
        rw [hm] at hclose hfmt
        have hr_abs : |(m : ℚ) / 1000| ≤ 99999999999949 / 100 + 1 / 200 := by
          have h1 : |(m : ℚ) / 1000| - |q| ≤ |(m : ℚ) / 1000 - q| := by
            have := abs_sub_abs_le_abs_sub ((m : ℚ) / 1000) q
            linarith
          linarith
        have hm_nat : m.natAbs < 999999999999500 := by
          have h1000 : |(m : ℚ)| = |(m : ℚ) / 1000| * 1000 := by
            rw [abs_div, show |(1000 : ℚ)| = 1000 by norm_num,
              div_mul_cancel₀ _ (by norm_num : (1000 : ℚ) ≠ 0)]
          have habs : |(m : ℚ)| ≤ 999999999999495 := by
            rw [h1000]
            linarith
          have h2 : (m.natAbs : ℚ) ≤ 999999999999495 := by
            rw [Int.cast_natAbs]
            push_cast
            exact habs
          have h3 : m.natAbs ≤ 999999999999495 := by exact_mod_cast h2
          omega
        subst hfmt
        simp only [String.data] at hcs
        obtain ⟨c0, hc0, rfl⟩ := List.mem_map.mp hcs
        have hc0e : c0 ≠ 'e' := fmtG_not_e m hm_nat delta c0 hc0
        by_cases hdash : c0 = '-'
        · rw [if_pos hdash]
          decide
        · rw [if_neg hdash]
          exact hc0e

theorem small_quantity_bound : |(247 : ℚ) / 200| ≤ 99999999999949 / 100 := by
  rw [abs_of_pos (by norm_num)]
  norm_num

theorem fq_eval_1235_direct : format_quantity (.fin (247 / 200)) false = .ok ("1.235") := by
  have hr0 : roundHalfUpDp (247 / 200) 3 = 247 / 200 := by
    unfold roundHalfUpDp halfUpInt
    norm_num
  have hr1 : roundHalfUpDp (247 / 200) 2 = 31 / 25 := by
    unfold roundHalfUpDp halfUpInt
    norm_num
  have hb : |halfUpInt ((247 : ℚ) / 200 * 10 ^ 3)| < 10 ^ 28 := by
    have hbe : halfUpInt ((247 : ℚ) / 200 * 10 ^ 3) = 1235 := by
      unfold halfUpInt
      norm_num
    rw [hbe, abs_of_nonneg (by norm_num)]
    norm_num
  have hrq : round_quantity (.fin (247 / 200)) = .ok (247 / 200) := by
    rw [round_quantity_keeps (247 / 200) hb (by rw [hr0, hr1, abs_le]; norm_num), hr0]
  unfold format_quantity
  rw [hrq]
  have hf : fmtG (247 / 200) false = gChars 1235 := by
    unfold fmtG
    rw [if_neg (by norm_num), if_neg (by norm_num)]
    simp only [Bool.false_eq_true, if_false, List.nil_append]
    congr 1
    rw [abs_of_pos (by norm_num)]
    norm_num
    decide
  simp only [Except.map, hf]
  decide

/-- C8 witness: the amended no-exponential statement applied to the value
1.235, whose rendering contains no exponent marker. -/
theorem C8_errors_and_notation_witness :
    ∀ c ∈ ("1.235" : String).data, c ≠ 'e' :=
  C8_errors_and_notation.2.2.2.2 (247 / 200) false "1.235" small_quantity_bound
    fq_eval_1235_direct

set_option maxHeartbeats 1000000 in
theorem yoeOf_g_mono (a : ℕ) (h : a + 1 ≤ 146096) :
    a - a / 1460 + a / 36524 - a / 146096 ≤
      (a + 1) - (a + 1) / 1460 + (a + 1) / 36524 - (a + 1) / 146096 := by
  omega

theorem yoeOf_mono_step (a : ℕ) (h : a + 1 ≤ 146096) : yoeOf a ≤ yoeOf (a + 1) :=
  Nat.div_le_div_right (yoeOf_g_mono a h)

theorem yoeOf_mono (a b : ℕ) (hab : a ≤ b) (hb : b ≤ 146096) : yoeOf a ≤ yoeOf b := by
  induction b with
  | zero => exact le_of_eq (congrArg yoeOf (Nat.le_zero.mp hab))
  | succ m ih =>
    rcases Nat.lt_succ_iff_lt_or_eq.mp (Nat.lt_succ_of_le hab) with h1 | h1
    · exact le_trans (ih (by omega) (by omega)) (yoeOf_mono_step m (by omega))
    · exact le_of_eq (congrArg yoeOf h1)

set_option maxRecDepth 2000 in
theorem yoe_boundaries : ∀ yoe < 400,
    yoeOf (daysBeforeYoe yoe) = yoe ∧ yoeOf (yoeEnd yoe - 1) = yoe ∧
    yoeEnd yoe ≤ daysBeforeYoe yoe + 367 ∧ daysBeforeYoe yoe < yoeEnd yoe ∧
    yoeEnd yoe ≤ 146097 := by
  decide

theorem yoeOf_interval (yoe n : ℕ) (hy : yoe < 400)
    (h1 : daysBeforeYoe yoe ≤ n) (h2 : n < yoeEnd yoe) : yoeOf n = yoe := by
  obtain ⟨hb1, hb2, _, _, hend⟩ := yoe_boundaries yoe hy
  have lo : yoe ≤ yoeOf n := hb1 ▸ yoeOf_mono (daysBeforeYoe yoe) n h1 (by omega)
  have hi : yoeOf n ≤ yoe := hb2 ▸ yoeOf_mono n (yoeEnd yoe - 1) (by omega) (by omega)
  omega

theorem yoe_cover : ∀ k < 400, ∀ n < yoeEnd k,
    ∃ yoe, yoe < 400 ∧ daysBeforeYoe yoe ≤ n ∧ n < yoeEnd yoe := by
  intro k
  induction k with
  | zero =>
      intro _ n hn
      exact ⟨0, by omega, by simp [daysBeforeYoe], hn⟩
  | succ m ih =>
      intro hk n hn
      by_cases hc : n < yoeEnd m
      · exact ih (by omega) n hc
      · refine ⟨m + 1, hk, ?_, hn⟩
        have hne : m ≠ 399 := by omega
        have : yoeEnd m = daysBeforeYoe (m + 1) := by simp [yoeEnd, hne]
        omega

theorem yoeOf_correct (n : ℕ) (hn : n < 146097) :
    yoeOf n < 400 ∧ daysBeforeYoe (yoeOf n) ≤ n ∧ n < daysBeforeYoe (yoeOf n) + 367 := by
  have h399 : yoeEnd 399 = 146097 := by simp [yoeEnd]
  obtain ⟨yoe, hy, h1, h2⟩ := yoe_cover 399 (by omega) n (by omega)
  have heq := yoeOf_interval yoe n hy h1 h2
  obtain ⟨_, _, h3, _, _⟩ := yoe_boundaries yoe hy
  subst heq
  exact ⟨hy, h1, by omega⟩

theorem toDays_parts (era : ℤ) (yoe doy mp d m : ℕ)
    (hyoe : yoe < 400) (hmp : mp = (5 * doy + 2) / 153) (hmp11 : mp ≤ 11)
    (hd : d = doy - (153 * mp + 2) / 5 + 1) (hback : (153 * mp + 2) / 5 ≤ doy)
    (hm : m = if mp < 10 then mp + 3 else mp - 9) :
    toDays ⟨era * 400 + (yoe : ℤ) + (if m ≤ 2 then 1 else 0), m, d⟩
      = era * 146097 + ((365 * yoe + yoe / 4 - yoe / 100 + doy : ℕ) : ℤ) - 719468 := by
  unfold toDays
  dsimp only
  have hyz : ((era * 400 + (yoe : ℤ) + (if m ≤ 2 then 1 else 0)) - (if m ≤ 2 then 1 else 0))
      = (yoe : ℤ) + era * 400 := by ring
  rw [hyz]
  have hediv : ((yoe : ℤ) + era * 400) / 400 = era := by
    rw [Int.add_mul_ediv_right _ _ (by norm_num : (400 : ℤ) ≠ 0)]
    rw [Int.ediv_eq_zero_of_lt (by positivity) (by exact_mod_cast hyoe)]
    ring
  have hemod : (((yoe : ℤ) + era * 400) % 400).toNat = yoe := by
    rw [Int.add_mul_emod_self]
    rw [Int.emod_eq_of_lt (by positivity) (by exact_mod_cast hyoe)]
    exact Int.toNat_natCast yoe
  rw [hediv, hemod]
  have hmonth : (if 2 < m then m - 3 else m + 9) = mp := by
    by_cases hcmp : mp < 10
    · rw [hm, if_pos hcmp]
      rw [if_pos (by omega)]
      omega
    · rw [hm, if_neg hcmp]
      rw [if_neg (by omega)]
      omega
  rw [hmonth]
  have hdoy : (153 * mp + 2) / 5 + d - 1 = doy := by omega
  rw [hdoy]

theorem toDays_ofDays (z : ℤ) : toDays (ofDays z) = z := by
  have h0 : 0 ≤ (z + 719468) % 146097 := Int.emod_nonneg _ (by norm_num)
  have h1 : (z + 719468) % 146097 < 146097 := Int.emod_lt_of_pos _ (by norm_num)
  have hn146 : ((z + 719468) % 146097).toNat < 146097 := by omega
  obtain ⟨hyoe, hle, hlt⟩ := yoeOf_correct _ hn146
  have hparts := toDays_parts ((z + 719468) / 146097)
    (yoeOf ((z + 719468) % 146097).toNat)
    (((z + 719468) % 146097).toNat - daysBeforeYoe (yoeOf ((z + 719468) % 146097).toNat))
    ((5 * (((z + 719468) % 146097).toNat
        - daysBeforeYoe (yoeOf ((z + 719468) % 146097).toNat)) + 2) / 153)
    ((((z + 719468) % 146097).toNat - daysBeforeYoe (yoeOf ((z + 719468) % 146097).toNat))
      - (153 * ((5 * (((z + 719468) % 146097).toNat
        - daysBeforeYoe (yoeOf ((z + 719468) % 146097).toNat)) + 2) / 153) + 2) / 5 + 1)
    (if (5 * (((z + 719468) % 146097).toNat
        - daysBeforeYoe (yoeOf ((z + 719468) % 146097).toNat)) + 2) / 153 < 10
      then (5 * (((z + 719468) % 146097).toNat
        - daysBeforeYoe (yoeOf ((z + 719468) % 146097).toNat)) + 2) / 153 + 3
      else (5 * (((z + 719468) % 146097).toNat
        - daysBeforeYoe (yoeOf ((z + 719468) % 146097).toNat)) + 2) / 153 - 9)
    hyoe rfl (by unfold daysBeforeYoe at hle hlt ⊢; omega) rfl
    (by unfold daysBeforeYoe at hle hlt ⊢; omega) rfl
  unfold ofDays
  dsimp only
  unfold daysBeforeYoe at hparts ⊢
  rw [hparts]
  have hsum : 365 * yoeOf ((z + 719468) % 146097).toNat
      + yoeOf ((z + 719468) % 146097).toNat / 4
      - yoeOf ((z + 719468) % 146097).toNat / 100
      + (((z + 719468) % 146097).toNat
        - (365 * yoeOf ((z + 719468) % 146097).toNat
          + yoeOf ((z + 719468) % 146097).toNat / 4
          - yoeOf ((z + 719468) % 146097).toNat / 100))
      = ((z + 719468) % 146097).toNat := by
    unfold daysBeforeYoe at hle
    omega
  rw [hsum]
  have hdm := Int.ediv_add_emod (z + 719468) 146097
  omega

theorem civil_eta (c : Civil) : (⟨c.year + 0, c.month, c.day⟩ : Civil) = c := by
  cases c
  simp

theorem toDays_calendar_delta_days (c : Civil) (k : ℤ) :
    toDays (calendar_delta c 0 0 k) = toDays c + k := by
  unfold calendar_delta
  dsimp only
  rw [if_neg (by norm_num : ¬ (0 : ℤ) ≠ 0), civil_eta]
  by_cases hk : k = 0
  · subst hk
    rw [if_neg (by norm_num)]
    ring
  · rw [if_pos hk, toDays_ofDays]

theorem weekday_lt (c : Civil) : weekday c < 7 := by
  unfold weekday
  have h1 : (toDays c + 3) % 7 < 7 := Int.emod_lt_of_pos _ (by norm_num)
  have h0 : 0 ≤ (toDays c + 3) % 7 := Int.emod_nonneg _ (by norm_num)
  omega

theorem natural_date_this_week (thenD now : Civil) (clock : PyDateTime)
    (h1 : thenD ≠ now) (h2 : thenD ≠ calendar_delta now 0 0 (-1))
    (h3 : thenD ≠ calendar_delta now 0 0 1)
    (h4 : toDays now - weekday now ≤ toDays thenD)
    (h5 : toDays thenD < toDays now - weekday now + 7) :
    natural_date (.d thenD) (some (.d now)) clock = .THIS_WEEK := by
  unfold natural_date
  dsimp only [dateOf]
  rw [if_neg h1, if_neg h2, if_neg h3]
  simp only [toDays_calendar_delta_days]
  rw [if_neg (by omega), if_pos (by omega)]

theorem natural_date_last_week (thenD now : Civil) (clock : PyDateTime)
    (h1 : thenD ≠ now) (h2 : thenD ≠ calendar_delta now 0 0 (-1))
    (h3 : thenD ≠ calendar_delta now 0 0 1)
    (h4 : toDays now - weekday now - 7 ≤ toDays thenD)
    (h5 : toDays thenD < toDays now - weekday now) :
    natural_date (.d thenD) (some (.d now)) clock = .LAST_WEEK := by
  unfold natural_date
  dsimp only [dateOf]
  rw [if_neg h1, if_neg h2, if_neg h3]
  simp only [toDays_calendar_delta_days]
  rw [if_pos (by omega)]

theorem natural_date_next_week (thenD now : Civil) (clock : PyDateTime)
    (h1 : thenD ≠ now) (h2 : thenD ≠ calendar_delta now 0 0 (-1))
    (h3 : thenD ≠ calendar_delta now 0 0 1)
    (h4 : toDays now - weekday now + 7 ≤ toDays thenD)
    (h5 : toDays thenD < toDays now - weekday now + 14) :
    natural_date (.d thenD) (some (.d now)) clock = .NEXT_WEEK := by
  unfold natural_date
  dsimp only [dateOf]
  rw [if_neg h1, if_neg h2, if_neg h3]
  simp only [toDays_calendar_delta_days]
  rw [if_neg (by omega), if_neg (by omega), if_pos (by omega)]

theorem natural_plus_seven (now : Civil) (clock : PyDateTime) :
    natural_date (.d (ofDays (toDays now + 7))) (some (.d now)) clock = .NEXT_WEEK := by
  have ht : toDays (ofDays (toDays now + 7)) = toDays now + 7 := toDays_ofDays _
  have hw7 : weekday now < 7 := weekday_lt now
  have hw0 : (0 : ℤ) ≤ weekday now := by positivity
  apply natural_date_next_week
  · intro heq
    have := congrArg toDays heq
    rw [ht] at this
    omega
  · intro heq
    have := congrArg toDays heq
    rw [ht, toDays_calendar_delta_days] at this
    omega
  · intro heq
    have := congrArg toDays heq
    rw [ht, toDays_calendar_delta_days] at this
    omega
  · rw [ht]
    omega
  · rw [ht]
    have : ((weekday now : ℤ)) < 7 := by exact_mod_cast hw7
    omega

/-- C6: the natural-date classifier puts a date exactly 7 days after the
reference into NEXT_WEEK, hence never into THIS_WEEK; and away from the
TODAY and adjacent-day buckets, the Monday-anchored half-open windows
[this Monday, next Monday), the preceding 7 days and the following 7 days
classify as THIS_WEEK, LAST_WEEK and NEXT_WEEK respectively. -/
theorem C6_week_buckets :
    (∀ (now : Civil) (clock : PyDateTime),
      natural_date (.d (ofDays (toDays now + 7))) (some (.d now)) clock = .NEXT_WEEK) ∧
    (∀ (now : Civil) (clock : PyDateTime),
      natural_date (.d (ofDays (toDays now + 7))) (some (.d now)) clock ≠ .THIS_WEEK) ∧
    (∀ (thenD now : Civil) (clock : PyDateTime),
      thenD ≠ now → thenD ≠ calendar_delta now 0 0 (-1) → thenD ≠ calendar_delta now 0 0 1 →
      toDays now - weekday now ≤ toDays thenD →
      toDays thenD < toDays now - weekday now + 7 →
      natural_date (.d thenD) (some (.d now)) clock = .THIS_WEEK) ∧
    (∀ (thenD now : Civil) (clock : PyDateTime),
      thenD ≠ now → thenD ≠ calendar_delta now 0 0 (-1) → thenD ≠ calendar_delta now 0 0 1 →
      toDays now - weekday now - 7 ≤ toDays thenD →
      toDays thenD < toDays now - weekday now →
      natural_date (.d thenD) (some (.d now)) clock = .LAST_WEEK) ∧
    (∀ (thenD now : Civil) (clock : PyDateTime),
      thenD ≠ now → thenD ≠ calendar_delta now 0 0 (-1) → thenD ≠ calendar_delta now 0 0 1 →
      toDays now - weekday now + 7 ≤ toDays thenD →
      toDays thenD < toDays now - weekday now + 14 →
      natural_date (.d thenD) (some (.d now)) clock = .NEXT_WEEK) := by
  refine ⟨natural_plus_seven, ?_, natural_date_this_week, natural_date_last_week,
    natural_date_next_week⟩
  intro now clock
  rw [natural_plus_seven now clock]
  decide

/-- C6 witness: 2020-04-30 was a Thursday; 2020-04-28 (the Tuesday of the
same Monday-anchored week, not adjacent to the reference) classifies as
THIS_WEEK. -/
theorem C6_week_buckets_witness :
    natural_date (.d (Civil.mk 2020 4 28)) (some (.d (Civil.mk 2020 4 30)))
      (PyDateTime.mk (Civil.mk 2020 4 30) 0) = .THIS_WEEK :=
  C6_week_buckets.2.2.1 (Civil.mk 2020 4 28) (Civil.mk 2020 4 30)
    (PyDateTime.mk (Civil.mk 2020 4 30) 0)
    (by decide) (by decide) (by decide) (by decide) (by decide)

theorem bind_cases {α β : Type} (x : Except PyError α) (f : α → Except PyError β)
    (hx : (∃ a, x = .ok a) ∨ x = .error .valueError)
    (hf : ∀ a, (∃ b, f a = .ok b) ∨ f a = .error .valueError) :
    (∃ b, x >>= f = .ok b) ∨ x >>= f = .error .valueError := by
  rcases hx with ⟨a, ha⟩ | ha <;> subst ha
  · exact hf a
  · exact Or.inr rfl

theorem pyDate_cases (y : ℤ) (m d : ℕ) :
    (∃ c, pyDate y m d = .ok c) ∨ pyDate y m d = .error .valueError := by
  unfold pyDate
  split
  · exact Or.inl ⟨_, rfl⟩
  · exact Or.inr rfl

theorem calendar_delta_py_cases (c : Civil) (years months days : ℤ) :
    (∃ r, calendar_delta_py c years months days = .ok r) ∨
      calendar_delta_py c years months days = .error .valueError := by
  unfold calendar_delta_py
  apply bind_cases
  · exact pyDate_cases _ _ _
  · intro d0
    dsimp only
    exact Or.inl ⟨_, rfl⟩

theorem countLoop_cases (years months days : ℤ) (afterFirst : Civil) :
    ∀ (fuel : ℕ) (st : Civil × ℤ),
      (∃ r, countLoop years months days afterFirst fuel st = .ok r) ∨
        countLoop years months days afterFirst fuel st = .error .valueError := by
  intro fuel
  induction fuel with
  | zero =>
      intro st
      obtain ⟨p0, c0⟩ := st
      exact Or.inl ⟨_, rfl⟩
  | succ n ih =>
      intro st
      obtain ⟨previous, count⟩ := st
      simp only [countLoop]
      split
      · apply bind_cases
        · exact calendar_delta_py_cases _ _ _ _
        · intro p
          dsimp only
          exact ih (p, count + 1)
      · exact Or.inl ⟨_, rfl⟩

theorem calendar_count_cases (first second : Civil) (years months days : ℤ) :
    (∃ r, calendar_count first second years months days = .ok r) ∨
      calendar_count first second years months days = .error .valueError := by
  unfold calendar_count
  apply bind_cases
  · exact calendar_delta_py_cases _ _ _ _
  · intro afterFirst
    dsimp only
    apply bind_cases
    · exact countLoop_cases _ _ _ _ _ _
    · intro st
      dsimp only
      exact Or.inl ⟨_, rfl⟩

theorem sinceDate_cases (thenD other : Civil) :
    (∃ s, sinceDate thenD other = .ok s) ∨
      sinceDate thenD other = .error .valueError := by
  unfold sinceDate
  dsimp only
  split
  · split
    · exact Or.inl ⟨_, rfl⟩
    · split
      · exact Or.inl ⟨_, rfl⟩
      · apply bind_cases
        · exact calendar_delta_py_cases _ _ _ _
        · intro d7
          dsimp only
          split
          · apply bind_cases
            · exact calendar_count_cases _ _ _ _ _
            · intro nDays
              dsimp only
              exact Or.inl ⟨_, rfl⟩
          · apply bind_cases
            · exact calendar_delta_py_cases _ _ _ _
            · intro m1
              dsimp only
              split
              · apply bind_cases
                · exact calendar_count_cases _ _ _ _ _
                · intro nWeeks
                  dsimp only
                  exact Or.inl ⟨_, rfl⟩
              · apply bind_cases
                · exact calendar_delta_py_cases _ _ _ _
                · intro y1
                  dsimp only
                  split
                  · apply bind_cases
                    · exact calendar_count_cases _ _ _ _ _
                    · intro nMonths
                      dsimp only
                      exact Or.inl ⟨_, rfl⟩
                  · apply bind_cases
                    · exact calendar_count_cases _ _ _ _ _
                    · intro nYears
                      dsimp only
                      exact Or.inl ⟨_, rfl⟩
  · split
    · exact Or.inl ⟨_, rfl⟩
    · split
      · exact Or.inl ⟨_, rfl⟩
      · apply bind_cases
        · exact calendar_delta_py_cases _ _ _ _
        · intro d7
          dsimp only
          split
          · apply bind_cases
            · exact calendar_count_cases _ _ _ _ _
            · intro nDays
              dsimp only
              exact Or.inl ⟨_, rfl⟩
          · apply bind_cases
            · exact calendar_delta_py_cases _ _ _ _
            · intro m1
              dsimp only
              split
              · apply bind_cases
                · exact calendar_count_cases _ _ _ _ _
                · intro nWeeks
                  dsimp only
                  exact Or.inl ⟨_, rfl⟩
              · apply bind_cases
                · exact calendar_delta_py_cases _ _ _ _
                · intro y1
                  dsimp only
                  split
                  · apply bind_cases
                    · exact calendar_count_cases _ _ _ _ _
                    · intro nMonths
                      dsimp only
                      exact Or.inl ⟨_, rfl⟩
                  · apply bind_cases
                    · exact calendar_count_cases _ _ _ _ _
                    · intro nYears
                      dsimp only
                      exact Or.inl ⟨_, rfl⟩

theorem since_d_ne_typeError (c : Civil) (x : DateArg) (clock : PyDateTime) :
    since (.d c) (some x) clock ≠ .error .typeError := by
  have h : since (.d c) (some x) clock = sinceDate c (dateOf x) := by
    cases x with
    | d c2 => rfl
    | dt t => rfl
  rw [h]
  rcases sinceDate_cases c (dateOf x) with ⟨s, hs⟩ | hs <;> rw [hs]
  · intro hh
    exact Except.noConfusion hh
  · intro hh
    rw [Except.error.injEq] at hh
    exact PyError.noConfusion hh

/-- C1 (amended): mixing a timestamped first argument with a date-only
second argument always fails with TypeError; in the reverse order the
classifier never raises TypeError — the date part of the second argument
is extracted — but it is not failure-free: the leap-day first argument
February 29 2020 measured against noon of June 1 2021 raises ValueError
from the year-shifted date construction inside the calendar arithmetic. -/
theorem C1_mixed_kinds :
    (∀ (t : PyDateTime) (c : Civil) (clock : PyDateTime),
      since (.dt t) (some (.d c)) clock = .error .typeError) ∧
    (∀ (c : Civil) (x : DateArg) (clock : PyDateTime),
      since (.d c) (some x) clock ≠ .error .typeError) ∧
    since (.d (Civil.mk 2020 2 29)) (some (.dt (PyDateTime.mk (Civil.mk 2021 6 1) 43200)))
      (PyDateTime.mk (Civil.mk 2021 6 1) 0) = .error .valueError :=
  ⟨fun _ _ _ => rfl, since_d_ne_typeError, by decide⟩

/-- C1 witness: the never-TypeError direction applied at a concrete pair,
April 29 2020 measured against the date April 30 2020. -/
theorem C1_mixed_kinds_witness :
    since (.d (Civil.mk 2020 4 29)) (some (.d (Civil.mk 2020 4 30)))
      (PyDateTime.mk (Civil.mk 2020 4 30) 0) ≠ .error .typeError :=
  C1_mixed_kinds.2.1 (Civil.mk 2020 4 29) (.d (Civil.mk 2020 4 30))
    (PyDateTime.mk (Civil.mk 2020 4 30) 0)

/-- C1 counterexample: with a date-only first argument and a timestamped
second argument the classifier does not raise: April 29 2020 against noon
of April 30 2020 returns the label yesterday. -/
theorem C1_counterexample :
    since (.d (Civil.mk 2020 4 29)) (some (.dt (PyDateTime.mk (Civil.mk 2020 4 30) 43200)))
      (PyDateTime.mk (Civil.mk 2020 4 30) 0) = .ok ("yesterday") := by
  decide
